import Mathlib

/-!
Shallow embedding of the feaLib tokenizer (`Lib/fontTools/feaLib/lexer.py`):
the class `Lexer` (a single-buffer scanner) and the class `IncludingLexer`
(the include-resolving wrapper holding a stack of `Lexer`s).

Python text buffers are modelled as `List Char`, cursor positions as `Nat`,
and the exception-based control flow as `Except ScanErr`.  `StopIteration`
is the constructor `ScanErr.stop`; `FeatureLibError(message, location)` is
`ScanErr.lexError`; the raw Python `ValueError`/`TypeError` that can escape
from `int(...)` and from `next_char in <string>` when `next_char` is `None`
are `ScanErr.valueError` / `ScanErr.typeError`.
-/

namespace FeaLexer

/-- Token kinds, mirroring the class constants `Lexer.NUMBER` .. `Lexer.NEWLINE`. -/
inductive TokenType
  | NUMBER
  | STRING
  | NAME
  | FILENAME
  | GLYPHCLASS
  | CID
  | SYMBOL
  | COMMENT
  | NEWLINE
deriving DecidableEq, Repr

/-- Token payloads: Python uses `None` for newlines, `int` for numbers and CIDs,
and `str` for everything else. -/
inductive TokVal
  | none
  | int (n : Int)
  | str (s : String)
deriving DecidableEq, Repr

/-- A source location `(self.filename_, self.line_, column)`.  The column is an
integer because `IncludingLexer.__init__` builds the literal location
`(filename, 0, 0)` while scanner-computed columns are `pos_ - line_start_ + 1`. -/
structure Location where
  file : String
  line : Nat
  col : Int
deriving DecidableEq, Repr

/-- A `(token_type, token, location)` triple as returned by `Lexer.next_`. -/
structure Tok where
  ttype : TokenType
  value : TokVal
  loc : Location
deriving DecidableEq, Repr

/-- `Lexer.MODE_NORMAL_` / `Lexer.MODE_FILENAME_`. -/
inductive Mode
  | NORMAL
  | FILENAME
deriving DecidableEq, Repr

/-- The mutable state of one `Lexer` instance (§`Lexer.__init__`).
`text_length_` is not stored: it always equals `text_.length`. -/
structure LexerState where
  filename_ : String
  line_ : Nat
  pos_ : Nat
  line_start_ : Nat
  text_ : List Char
  mode_ : Mode
deriving DecidableEq, Repr

/-- Failure modes of one `next()` step. -/
inductive LexMsg
  /-- "Expected '(' before file name" -/
  | expectedOpenParen
  /-- "Expected ')' after file name" -/
  | expectedCloseParen
  /-- "Expected glyph class name" -/
  | expectedGlyphClassName
  /-- "Glyph class names must not be longer than 30 characters" -/
  | glyphClassTooLong
  /-- "Glyph class names must consist of letters, digits, underscore, or period" -/
  | glyphClassBadChars
  /-- "Expected '\"' to terminate string" -/
  | expectedStringTerm
  /-- "Unexpected character: ..." -/
  | unexpectedCharacter (c : Char)
  /-- `IncludingLexer`: "Expected file name" -/
  | expectedFileName
  /-- `IncludingLexer`: "Expected ';'" -/
  | expectedSemicolon
  /-- `IncludingLexer`: "Too many recursive includes" -/
  | tooManyRecursiveIncludes
  /-- `IncludingLexer.make_lexer_`: `FeatureLibError(str(err), location)` for an
  `IOError`; the payload records the path that could not be opened. -/
  | ioError (path : String)
deriving DecidableEq, Repr

/-- Exceptions crossing a `next()` call: `StopIteration`, `FeatureLibError`,
and the raw (unlabeled) Python `ValueError` / `TypeError`; `fuelOut` marks
exhaustion of the step budget of the fuel-indexed loops and never occurs for
the fuel values used in the theorems below. -/
inductive ScanErr
  | stop
  | lexError (msg : LexMsg) (loc : Location)
  | valueError (literal : List Char)
  | typeError
  | fuelOut
deriving DecidableEq, Repr

/-! ### Character classes (`Lexer.CHAR_*_`) -/

/-- `CHAR_WHITESPACE_ = " \t"` -/
def CHAR_WHITESPACE_ : List Char := [' ', '\t']

/-- `CHAR_NEWLINE_ = "\r\n"` -/
def CHAR_NEWLINE_ : List Char := ['\r', '\n']

/-- The apostrophe character (part of `CHAR_SYMBOL_`). -/
def apos : Char := Char.ofNat 39

/-- The opening curly bracket character (part of `CHAR_SYMBOL_`). -/
def lcurly : Char := Char.ofNat 123

/-- The closing curly bracket character (part of `CHAR_SYMBOL_`). -/
def rcurly : Char := Char.ofNat 125

/-- `CHAR_SYMBOL_ = ";:-+'{}[]<>()="` -/
def CHAR_SYMBOL_ : List Char :=
  [';', ':', '-', '+', apos, lcurly, rcurly, '[', ']', '<', '>', '(', ')', '=']

/-- `CHAR_DIGIT_ = "0123456789"` -/
def CHAR_DIGIT_ : List Char := ['0', '1', '2', '3', '4', '5', '6', '7', '8', '9']

/-- `CHAR_HEXDIGIT_ = "0123456789ABCDEFabcdef"` -/
def CHAR_HEXDIGIT_ : List Char :=
  CHAR_DIGIT_ ++ ['A', 'B', 'C', 'D', 'E', 'F', 'a', 'b', 'c', 'd', 'e', 'f']

/-- `CHAR_LETTER_ = "ABCDEFGHIJKLMNOPQRSTUVWXYZabcdefghijklmnopqrstuvwxyz"` -/
def CHAR_LETTER_ : List Char :=
  ['A', 'B', 'C', 'D', 'E', 'F', 'G', 'H', 'I', 'J', 'K', 'L', 'M',
   'N', 'O', 'P', 'Q', 'R', 'S', 'T', 'U', 'V', 'W', 'X', 'Y', 'Z',
   'a', 'b', 'c', 'd', 'e', 'f', 'g', 'h', 'i', 'j', 'k', 'l', 'm',
   'n', 'o', 'p', 'q', 'r', 's', 't', 'u', 'v', 'w', 'x', 'y', 'z']

/-- `CHAR_NAME_START_ = CHAR_LETTER_ + "_+*:.^~!\\"` -/
def CHAR_NAME_START_ : List Char :=
  CHAR_LETTER_ ++ ['_', '+', '*', ':', '.', '^', '~', '!', '\\']

/-- `CHAR_NAME_CONTINUATION_ = CHAR_LETTER_ + CHAR_DIGIT_ + "_.+*:^~!"` -/
def CHAR_NAME_CONTINUATION_ : List Char :=
  CHAR_LETTER_ ++ CHAR_DIGIT_ ++ ['_', '.', '+', '*', ':', '^', '~', '!']

/-- `RE_GLYPHCLASS = re.compile(r"^[A-Za-z_0-9.]+$")`: the whole string is one
or more letters, digits, underscores or periods. -/
def reGlyphclassMatch (s : List Char) : Bool :=
  !s.isEmpty && s.all fun c =>
    CHAR_LETTER_.contains c || CHAR_DIGIT_.contains c || c == '_' || c == '.'

/-! ### Scanning helpers -/

/-- Length of the longest prefix whose characters all satisfy `p`
(the loop body shared by `scan_over_` and `scan_until_`). -/
def countWhile (p : Char → Bool) : List Char → Nat
  | [] => 0
  | c :: cs => if p c then countWhile p cs + 1 else 0

/-- `scan_over_(valid)` starting from position `p`: advance while the current
character is in `valid`. -/
def scanOverPos (text : List Char) (valid : List Char) (p : Nat) : Nat :=
  p + countWhile (fun c => valid.contains c) (text.drop p)

/-- `scan_until_(stop_at)` starting from position `p`: advance while the
current character is not in `stop_at`. -/
def scanUntilPos (text : List Char) (stopAt : List Char) (p : Nat) : Nat :=
  p + countWhile (fun c => !stopAt.contains c) (text.drop p)

/-- The Python slice `text[a:b]` (for `a ≤ b`). -/
def slice (text : List Char) (a b : Nat) : List Char :=
  (text.drop a).take (b - a)

/-- Base-10 value of a digit string. -/
def digitsVal (ds : List Char) : Nat :=
  ds.foldl (fun a c => a * 10 + (c.toNat - 48)) 0

/-- Value of one hexadecimal digit. -/
def hexDigitVal (c : Char) : Nat :=
  if c.toNat ≤ 57 then c.toNat - 48
  else if c.toNat ≤ 70 then c.toNat - 55
  else c.toNat - 87

/-- Base-16 value of a hex-digit string. -/
def hexVal (ds : List Char) : Nat :=
  ds.foldl (fun a c => a * 16 + hexDigitVal c) 0

/-- Python `int(s, 10)` restricted to the shapes produced by the scanner
(optional leading minus sign followed by digits); `none` models the
`ValueError` raised when no digits follow. -/
def pyInt10 (s : List Char) : Option Int :=
  match s with
  | '-' :: rest =>
      if !rest.isEmpty && rest.all (fun c => CHAR_DIGIT_.contains c) then
        some (-(digitsVal rest : Int))
      else none
  | _ =>
      if !s.isEmpty && s.all (fun c => CHAR_DIGIT_.contains c) then
        some (digitsVal s : Int)
      else none

/-- Python `int(s, 16)` restricted to the shapes produced by the scanner:
an optional `0x`/`0X` prefix followed by hex digits; `none` models the
`ValueError` raised when no digits follow the prefix (e.g. `int("0x", 16)`). -/
def pyInt16 (s : List Char) : Option Int :=
  let body := match s with
    | '0' :: x :: rest => if x == 'x' || x == 'X' then rest else s
    | _ => s
  if !body.isEmpty && body.all (fun c => CHAR_HEXDIGIT_.contains c) then
    some (hexVal body : Int)
  else none

/-- The Python expression `cur_char == c0 and next_char in set` (as on the
lines `if cur_char == "\\" and next_char in Lexer.CHAR_DIGIT_:` etc.).
When `cur_char == c0` holds and `next_char` is `None`, the membership test
`None in <string>` raises a `TypeError`. -/
def andNextIn (cur : Char) (c0 : Char) (nextc : Option Char) (set : List Char) :
    Except ScanErr Bool :=
  if cur = c0 then
    match nextc with
    | Option.none => .error .typeError
    | some d => .ok (set.contains d)
  else .ok false

/-- The characters of the literal `"include"`. -/
def includeChars : List Char := ['i', 'n', 'c', 'l', 'u', 'd', 'e']

/-- Whether a character is one of the two newline characters. -/
def isNlChar (c : Char) : Bool := c == '\r' || c == '\n'

/-- The cursor position after `next_`'s initial whitespace skip: where the
token's location is captured and its first character sits. -/
def wsPos (st : LexerState) : Nat :=
  scanOverPos st.text_ CHAR_WHITESPACE_ st.pos_

/-! ### `Lexer.next_` -/

/-- The `if cur_char == "\\" and next_char in CHAR_DIGIT_:` block: scan the
digits after the backslash and convert them (`CID`). -/
def scanCID (st : LexerState) (start : Nat) (location : Location) :
    Except ScanErr (Tok × LexerState) :=
  match pyInt10 (slice st.text_ (start + 1) (scanOverPos st.text_ CHAR_DIGIT_ (start + 1))) with
  | some n =>
      .ok (⟨.CID, .int n, location⟩,
        { st with pos_ := scanOverPos st.text_ CHAR_DIGIT_ (start + 1) })
  | Option.none =>
      .error (.valueError (slice st.text_ (start + 1)
        (scanOverPos st.text_ CHAR_DIGIT_ (start + 1))))

/-- The `if cur_char == "@":` block: scan a glyph class name and validate it. -/
def scanGlyphClass (st : LexerState) (start : Nat) (location : Location) :
    Except ScanErr (Tok × LexerState) :=
  if (slice st.text_ (start + 1)
      (scanOverPos st.text_ CHAR_NAME_CONTINUATION_ (start + 1))).length < 1 then
    .error (.lexError .expectedGlyphClassName location)
  else if (slice st.text_ (start + 1)
      (scanOverPos st.text_ CHAR_NAME_CONTINUATION_ (start + 1))).length > 30 then
    .error (.lexError .glyphClassTooLong location)
  else if !reGlyphclassMatch (slice st.text_ (start + 1)
      (scanOverPos st.text_ CHAR_NAME_CONTINUATION_ (start + 1))) then
    .error (.lexError .glyphClassBadChars location)
  else
    .ok (⟨.GLYPHCLASS,
        .str (String.mk (slice st.text_ (start + 1)
          (scanOverPos st.text_ CHAR_NAME_CONTINUATION_ (start + 1)))), location⟩,
      { st with pos_ := scanOverPos st.text_ CHAR_NAME_CONTINUATION_ (start + 1) })

/-- The `if cur_char in Lexer.CHAR_NAME_START_:` block: scan a name; the
literal `include` switches the mode to `FILENAME` as a side effect. -/
def scanName (st : LexerState) (start : Nat) (location : Location) :
    Except ScanErr (Tok × LexerState) :=
  if slice st.text_ start (scanOverPos st.text_ CHAR_NAME_CONTINUATION_ (start + 1)) =
      includeChars then
    .ok (⟨.NAME,
        .str (String.mk (slice st.text_ start
          (scanOverPos st.text_ CHAR_NAME_CONTINUATION_ (start + 1)))), location⟩,
      { st with
        pos_ := scanOverPos st.text_ CHAR_NAME_CONTINUATION_ (start + 1),
        mode_ := .FILENAME })
  else
    .ok (⟨.NAME,
        .str (String.mk (slice st.text_ start
          (scanOverPos st.text_ CHAR_NAME_CONTINUATION_ (start + 1)))), location⟩,
      { st with pos_ := scanOverPos st.text_ CHAR_NAME_CONTINUATION_ (start + 1) })

/-- The `if cur_char == "0" and next_char in "xX":` block: skip the prefix,
scan hex digits, and convert with `int(..., 16)`. -/
def scanHex (st : LexerState) (start : Nat) (location : Location) :
    Except ScanErr (Tok × LexerState) :=
  match pyInt16 (slice st.text_ start (scanOverPos st.text_ CHAR_HEXDIGIT_ (start + 2))) with
  | some n =>
      .ok (⟨.NUMBER, .int n, location⟩,
        { st with pos_ := scanOverPos st.text_ CHAR_HEXDIGIT_ (start + 2) })
  | Option.none =>
      .error (.valueError (slice st.text_ start
        (scanOverPos st.text_ CHAR_HEXDIGIT_ (start + 2))))

/-- The `if cur_char in Lexer.CHAR_DIGIT_:` block: scan a decimal number. -/
def scanDecimal (st : LexerState) (start : Nat) (location : Location) :
    Except ScanErr (Tok × LexerState) :=
  match pyInt10 (slice st.text_ start (scanOverPos st.text_ CHAR_DIGIT_ start)) with
  | some n =>
      .ok (⟨.NUMBER, .int n, location⟩,
        { st with pos_ := scanOverPos st.text_ CHAR_DIGIT_ start })
  | Option.none =>
      .error (.valueError (slice st.text_ start (scanOverPos st.text_ CHAR_DIGIT_ start)))

/-- The `if cur_char == "-" and next_char in CHAR_DIGIT_:` block: scan the
digits after the minus sign; the minus sign is part of the parsed literal. -/
def scanNegNumber (st : LexerState) (start : Nat) (location : Location) :
    Except ScanErr (Tok × LexerState) :=
  match pyInt10 (slice st.text_ start (scanOverPos st.text_ CHAR_DIGIT_ (start + 1))) with
  | some n =>
      .ok (⟨.NUMBER, .int n, location⟩,
        { st with pos_ := scanOverPos st.text_ CHAR_DIGIT_ (start + 1) })
  | Option.none =>
      .error (.valueError (slice st.text_ start
        (scanOverPos st.text_ CHAR_DIGIT_ (start + 1))))

/-- The `if cur_char == \'"\':` block: scan until a quote or line terminator;
only a closing quote yields a `String` token. -/
def scanString (st : LexerState) (start : Nat) (location : Location) :
    Except ScanErr (Tok × LexerState) :=
  match st.text_.get? (scanUntilPos st.text_ ['"', '\r', '\n'] (start + 1)) with
  | some c =>
      if c = '"' then
        .ok (⟨.STRING,
            .str (String.mk (slice st.text_ (start + 1)
              (scanUntilPos st.text_ ['"', '\r', '\n'] (start + 1)))), location⟩,
          { st with pos_ := scanUntilPos st.text_ ['"', '\r', '\n'] (start + 1) + 1 })
      else .error (.lexError .expectedStringTerm location)
  | Option.none => .error (.lexError .expectedStringTerm location)

/-- The `if self.mode_ is Lexer.MODE_FILENAME_:` block: require `(`, scan to
`)`, and emit the text between the parentheses. -/
def scanFileName (st : LexerState) (start : Nat) (cur_char : Char)
    (location : Location) : Except ScanErr (Tok × LexerState) :=
  if cur_char ≠ '(' then .error (.lexError .expectedOpenParen location)
  else
    match st.text_.get? (scanUntilPos st.text_ [')'] start) with
    | some c =>
        if c = ')' then
          .ok (⟨.FILENAME,
              .str (String.mk (slice st.text_ (start + 1)
                (scanUntilPos st.text_ [')'] start))), location⟩,
            { st with
              pos_ := scanUntilPos st.text_ [')'] start + 1,
              mode_ := .NORMAL })
        else .error (.lexError .expectedCloseParen location)
    | Option.none => .error (.lexError .expectedCloseParen location)

/-- The tail of the branch cascade from `if cur_char == "-" ...` on:
negative number, symbol, string, or the unexpected-character failure. -/
def nextMinusSymbol (st : LexerState) (start : Nat) (cur_char : Char)
    (next_char : Option Char) (location : Location) :
    Except ScanErr (Tok × LexerState) :=
  match andNextIn cur_char '-' next_char CHAR_DIGIT_ with
  | .error e => .error e
  | .ok true => scanNegNumber st start location
  | .ok false =>
    if CHAR_SYMBOL_.contains cur_char then
      .ok (⟨.SYMBOL, .str (String.mk [cur_char]), location⟩,
        { st with pos_ := start + 1 })
    else if cur_char = '"' then scanString st start location
    else .error (.lexError (.unexpectedCharacter cur_char) location)

/-- The branch cascade from `if cur_char == "0" ...` on: hexadecimal number,
decimal number, then `nextMinusSymbol`. -/
def nextNumberish (st : LexerState) (start : Nat) (cur_char : Char)
    (next_char : Option Char) (location : Location) :
    Except ScanErr (Tok × LexerState) :=
  match andNextIn cur_char '0' next_char ['x', 'X'] with
  | .error e => .error e
  | .ok true => scanHex st start location
  | .ok false =>
    if CHAR_DIGIT_.contains cur_char then scanDecimal st start location
    else nextMinusSymbol st start cur_char next_char location

/-- The branch cascade from `if cur_char == "\\" ...` on: CID, glyph class,
name, then `nextNumberish`. -/
def nextNormal (st : LexerState) (start : Nat) (cur_char : Char)
    (next_char : Option Char) (location : Location) :
    Except ScanErr (Tok × LexerState) :=
  match andNextIn cur_char '\\' next_char CHAR_DIGIT_ with
  | .error e => .error e
  | .ok true => scanCID st start location
  | .ok false =>
    if cur_char = '@' then scanGlyphClass st start location
    else if CHAR_NAME_START_.contains cur_char then scanName st start location
    else nextNumberish st start cur_char next_char location

/-- The branch cascade of `Lexer.next_` after whitespace has been skipped:
`st.pos_ = start` points at `cur_char`, `next_char` is the following
character (if any), and `location` has already been captured.  Newlines and
comments are produced before the mode test; in `FILENAME` mode everything
else is handed to `scanFileName`, otherwise to the normal cascade. -/
def nextAt (st : LexerState) (start : Nat) (cur_char : Char)
    (next_char : Option Char) (location : Location) :
    Except ScanErr (Tok × LexerState) :=
  if cur_char = '\n' then
    .ok (⟨.NEWLINE, .none, location⟩,
      { st with pos_ := start + 1, line_ := st.line_ + 1, line_start_ := start + 1 })
  else if cur_char = '\r' then
    .ok (⟨.NEWLINE, .none, location⟩,
      { st with
        pos_ := start + (if next_char = some '\n' then 2 else 1),
        line_ := st.line_ + 1,
        line_start_ := start + (if next_char = some '\n' then 2 else 1) })
  else if cur_char = '#' then
    .ok (⟨.COMMENT,
        .str (String.mk (slice st.text_ start (scanUntilPos st.text_ CHAR_NEWLINE_ start))),
        location⟩,
      { st with pos_ := scanUntilPos st.text_ CHAR_NEWLINE_ start })
  else if st.mode_ = .FILENAME then scanFileName st start cur_char location
  else nextNormal st start cur_char next_char location

/-- `Lexer.next_`: skip whitespace, capture the location, and dispatch on the
current character; raises `StopIteration` at end of buffer. -/
def next_ (st : LexerState) : Except ScanErr (Tok × LexerState) :=
  if h : wsPos st < st.text_.length then
    nextAt { st with pos_ := wsPos st } (wsPos st) (st.text_.get ⟨wsPos st, h⟩)
      (st.text_.get? (wsPos st + 1))
      ⟨st.filename_, st.line_, (wsPos st : Int) - (st.line_start_ : Int) + 1⟩
  else .error .stop

/-- `Lexer.__init__(text, filename)`. -/
def Lexer.init (text : String) (filename : String) : LexerState :=
  { filename_ := filename, line_ := 1, pos_ := 0, line_start_ := 0,
    text_ := text.toList, mode_ := .NORMAL }

/-- `Lexer.__next__` (the public `next()`): call `next_` repeatedly until the
token is neither `COMMENT` nor `NEWLINE`.  The loop is fuel-indexed; the
fuel values used below always suffice. -/
def lexerNext (fuel : Nat) (st : LexerState) : Except ScanErr (Tok × LexerState) :=
  match fuel with
  | 0 => .error .fuelOut
  | f + 1 =>
    match next_ st with
    | .error e => .error e
    | .ok (tok, st') =>
      if tok.ttype = .COMMENT ∨ tok.ttype = .NEWLINE then lexerNext f st'
      else .ok (tok, st')

/-! ### `IncludingLexer` -/

/-- The filesystem seen by `IncludingLexer.make_lexer_`: a map from path to
decoded file content; `none` models an `IOError` on `codecs.open`. -/
def FS := String → Option String

/-- `os.path.split` for POSIX paths: split after the last slash, then strip
trailing slashes from the head unless the head is empty or all slashes. -/
def osPathSplit (p : String) : String × String :=
  let cs := p.toList
  let i := match cs.reverse.findIdx? (· == '/') with
    | some k => cs.length - k
    | Option.none => 0
  let head := cs.take i
  let tail := cs.drop i
  let head2 :=
    if head.isEmpty || head.all (· == '/') then head
    else (head.reverse.dropWhile (· == '/')).reverse
  (String.mk head2, String.mk tail)

/-- `os.path.join` for POSIX paths (two arguments). -/
def osPathJoin (a b : String) : String :=
  if b.toList.head? = some '/' then b
  else if a = "" ∨ a.toList.getLast? = some '/' then a ++ b
  else a ++ "/" ++ b

/-- `IncludingLexer.make_lexer_(filename, location)`: open and decode the file
and build a `Lexer` over it; an `IOError` becomes a `FeatureLibError` at the
given location. -/
def make_lexer_ (fs : FS) (filename : String) (loc : Location) :
    Except ScanErr LexerState :=
  match fs filename with
  | some content => .ok (Lexer.init content filename)
  | Option.none => .error (.lexError (.ioError filename) loc)

/-- The string payload of a token value (the `fname_token` used as a path
component is always a `str`). -/
def TokVal.strVal : TokVal → String
  | .str s => s
  | _ => ""

/-- One step of `IncludingLexer.__next__` over the stack of lexers (the head
of the list is the top of the stack, i.e. Python's `lexers_[-1]`).
Only the `lexer.next()` call on the *current* token is guarded by
`try ... except StopIteration`; a `StopIteration` escaping from the pulls of
the file name or the semicolon propagates to the caller like a normal
end-of-iteration.  `lexFuel` bounds the comment/newline-skipping loop inside
each `lexer.next()`; `fuel` bounds the pop/push loop. -/
def inclNext (fs : FS) (lexFuel : Nat) :
    Nat → List LexerState → Except ScanErr (Tok × List LexerState)
  | 0, _ => .error .fuelOut
  | _ + 1, [] => .error .stop
  | fuel + 1, lexer :: rest =>
    match lexerNext lexFuel lexer with
    | .error .stop => inclNext fs lexFuel fuel rest
    | .error e => .error e
    | .ok (tok, lexer1) =>
      if tok.ttype = .NAME ∧ tok.value = .str "include" then
        match lexerNext lexFuel lexer1 with
        | .error e => .error e
        | .ok (ftok, lexer2) =>
          if ftok.ttype ≠ .FILENAME then
            .error (.lexError .expectedFileName ftok.loc)
          else
            match lexerNext lexFuel lexer2 with
            | .error e => .error e
            | .ok (stok, lexer3) =>
              if ¬(stok.ttype = .SYMBOL ∧ stok.value = .str ";") then
                .error (.lexError .expectedSemicolon stok.loc)
              else
                let curpath := (osPathSplit lexer3.filename_).1
                let path := osPathJoin curpath ftok.value.strVal
                if (lexer3 :: rest).length ≥ 5 then
                  .error (.lexError .tooManyRecursiveIncludes ftok.loc)
                else
                  match make_lexer_ fs path ftok.loc with
                  | .error e => .error e
                  | .ok newLex => inclNext fs lexFuel fuel (newLex :: lexer3 :: rest)
      else .ok (tok, lexer1 :: rest)

/-- Iterate `IncludingLexer.__next__` to exhaustion, collecting the forwarded
tokens.  A `StopIteration` (`ScanErr.stop`) ends the stream normally — which,
as in Python, covers both the stack running empty and a `StopIteration`
escaping from an unguarded `lexer.next()` call inside `__next__`. -/
def inclRun (fs : FS) (lexFuel : Nat) :
    Nat → List LexerState → Except ScanErr (List Tok)
  | 0, _ => .error .fuelOut
  | fuel + 1, stack =>
    match inclNext fs lexFuel (fuel + 1) stack with
    | .error .stop => .ok []
    | .error e => .error e
    | .ok (tok, stack') =>
      match inclRun fs lexFuel fuel stack' with
      | .ok toks => .ok (tok :: toks)
      | .error e => .error e

/-- `IncludingLexer.__init__(filename)` followed by iterating the resolver to
exhaustion: the root lexer is built with the literal location
`(filename, 0, 0)`. -/
def runIncluding (fs : FS) (root : String) (lexFuel fuel : Nat) :
    Except ScanErr (List Tok) :=
  match make_lexer_ fs root ⟨root, 0, 0⟩ with
  | .error e => .error e
  | .ok lx => inclRun fs lexFuel fuel [lx]

/-- The token type of a successful step (used to state claims about single
calls without spelling out the whole successor state). -/
def stepType : Except ScanErr (Tok × LexerState) → Option TokenType
  | .ok (t, _) => some t.ttype
  | .error _ => Option.none

/-- The token of a successful step. -/
def stepTok : Except ScanErr (Tok × LexerState) → Option Tok
  | .ok (t, _) => some t
  | .error _ => Option.none

/-- The raw token sequence of one scanner: iterate `next_` until it raises,
collecting the tokens (used to state claims about raw token streams). -/
def rawTokens : Nat → LexerState → List Tok
  | 0, _ => []
  | f + 1, st =>
    match next_ st with
    | .ok (t, st') => t :: rawTokens f st'
    | .error _ => []

/-- Number of newline sequences (`\n`, or `\r` optionally followed by `\n`)
in a character list. -/
def nlSeqCount : List Char → Nat
  | [] => 0
  | c :: rest =>
    nlSeqCount rest +
      (if c = '\n' then 1
       else if c = '\r' ∧ rest.head? ≠ some '\n' then 1
       else 0)

/-- Well-formedness of a scanner state: the current line's start does not lie
beyond the cursor, and the line counter is at least 1.  `Lexer.__init__`
establishes it and every `next_` step preserves it. -/
def WF (st : LexerState) : Prop :=
  st.line_start_ ≤ st.pos_ ∧ 1 ≤ st.line_

/-! ### Concrete filesystems used in the claims about `IncludingLexer` -/

/-- A filesystem with no readable files. -/
def fsEmpty : FS := fun _ => Option.none

/-- Chain of exactly 5 files: `f1` includes `f2` includes … includes `f5`,
and `f5` holds a single name token. -/
def fs5 : FS := fun p =>
  if p = "f1" then some "include(f2);"
  else if p = "f2" then some "include(f3);"
  else if p = "f3" then some "include(f4);"
  else if p = "f4" then some "include(f5);"
  else if p = "f5" then some "A"
  else Option.none

/-- Chain of 6 nested files: `f1` … `f5` each include the next, `f6` holds a
single name token. -/
def fs6 : FS := fun p =>
  if p = "f1" then some "include(f2);"
  else if p = "f2" then some "include(f3);"
  else if p = "f3" then some "include(f4);"
  else if p = "f4" then some "include(f5);"
  else if p = "f5" then some "include(f6);"
  else if p = "f6" then some "B"
  else Option.none

/-- Root file including `a.fea` and `b.fea`, each holding one name token. -/
def fsAB : FS := fun p =>
  if p = "root.fea" then some "include(a.fea); include(b.fea);"
  else if p = "a.fea" then some "foo"
  else if p = "b.fea" then some "bar"
  else Option.none

/-- Root file whose include directive references a file that cannot be
opened. -/
def fsMissing : FS := fun p =>
  if p = "root.fea" then some "include(nope.fea);" else Option.none

/-- Root file whose buffer ends immediately after the name `include`. -/
def fsInclEOB : FS := fun p =>
  if p = "root.fea" then some "include" else Option.none

/-- Root file where the character after the name `include` is not `(`. -/
def fsInclBad : FS := fun p =>
  if p = "root.fea" then some "include x;" else Option.none

/-- Two-level include chain whose innermost target cannot be opened:
`root.fea` includes `mid.fea`, which includes the unreadable `nope.fea`. -/
def fsNestedMissing : FS := fun p =>
  if p = "root.fea" then some "include(mid.fea);"
  else if p = "mid.fea" then some "include(nope.fea);"
  else Option.none

/-- Classification of the LexError messages the Scanner itself can raise;
the resolver-only messages (expected file name, expected semicolon, too many
recursive includes, cannot open include) are excluded. -/
def scannerMsg : LexMsg → Bool
  | .expectedOpenParen => true
  | .expectedCloseParen => true
  | .expectedGlyphClassName => true
  | .glyphClassTooLong => true
  | .glyphClassBadChars => true
  | .expectedStringTerm => true
  | .unexpectedCharacter _ => true
  | _ => false

/-- A scanner state in filename mode whose next character is `x`: the state
reached right after the name `include` in the buffer `include x;`. -/
def c2St : LexerState :=
  { filename_ := "root.fea", line_ := 1, pos_ := 7, line_start_ := 0,
    text_ := "include x;".toList, mode_ := Mode.FILENAME }

/-- A scanner state over a single include directive referencing an
unreadable file (used to instantiate the attribution theorem). -/
def c6Lexer : LexerState := Lexer.init "include(nope.fea);" "root.fea"

/-- What one successful dispatch of the scanner's branch cascade guarantees,
relative to the captured `location` and the position `start` of the token's
first character: the token carries exactly that location; the cursor only
moves forward; buffer and source name are untouched; the line-start offset
never passes the cursor; and the line counter is advanced by exactly one for
a `Newline` token and untouched (with no newline characters consumed) for
every other token except `Filename`. -/
def StepSpec (st : LexerState) (start : Nat) (location : Location)
    (tok : Tok) (st' : LexerState) : Prop :=
  tok.loc = location ∧ start ≤ st'.pos_ ∧ st'.text_ = st.text_ ∧
  st'.filename_ = st.filename_ ∧ st'.line_start_ ≤ st'.pos_ ∧
  st.line_ ≤ st'.line_ ∧
  (tok.ttype = .NEWLINE →
    st'.line_ = st.line_ + 1 ∧ nlSeqCount (slice st.text_ start st'.pos_) = 1) ∧
  (tok.ttype ≠ .NEWLINE → tok.ttype ≠ .FILENAME →
    st'.line_ = st.line_ ∧ st'.line_start_ = st.line_start_ ∧
    nlSeqCount (slice st.text_ start st'.pos_) = 0)

/-- A one-token scanner state (used to instantiate stack-invariant and
location-invariant theorems at a concrete input). -/
def oneTokenLexer : LexerState := Lexer.init "x" "f"

/-- The state of `oneTokenLexer` after its single name token is consumed. -/
def oneTokenLexerAfter : LexerState :=
  { filename_ := "f", line_ := 1, pos_ := 1, line_start_ := 0,
    text_ := ['x'], mode_ := Mode.NORMAL }

/-- A two-character scanner state used to instantiate the location-discipline
theorem at a concrete input. -/
def c7St : LexerState := Lexer.init "ab" "f"

/-- The token produced by the first `next_` step on `c7St`. -/
def c7Tok : Tok := ⟨.NAME, .str "ab", ⟨"f", 1, 1⟩⟩

/-- The state of `c7St` after its first `next_` step. -/
def c7After : LexerState :=
  { filename_ := "f", line_ := 1, pos_ := 2, line_start_ := 0,
    text_ := ['a', 'b'], mode_ := Mode.NORMAL }


/-! ## Basic facts about the scanning helpers -/

/-! ### Basic facts about the scanning helpers -/

theorem countWhile_nil (p : Char → Bool) : countWhile p [] = 0 := rfl

theorem countWhile_cons (p : Char → Bool) (c : Char) (cs : List Char) :
    countWhile p (c :: cs) = if p c then countWhile p cs + 1 else 0 := rfl

theorem countWhile_le (p : Char → Bool) : ∀ l : List Char, countWhile p l ≤ l.length := by
  intro l
  induction l with
  | nil => simp [countWhile_nil]
  | cons c cs ih =>
    rw [countWhile_cons]
    split
    · simpa using ih
    · simp

theorem countWhile_take_all (p : Char → Bool) :
    ∀ l : List Char, (l.take (countWhile p l)).all p = true := by
  intro l
  induction l with
  | nil => rfl
  | cons c cs ih =>
    rw [countWhile_cons]
    split
    · rename_i hp
      simpa [List.all_cons, hp] using ih
    · simp

theorem countWhile_stop (p : Char → Bool) :
    ∀ (l : List Char) (c : Char), l.get? (countWhile p l) = some c → p c = false := by
  intro l
  induction l with
  | nil => intro c h; simp at h
  | cons c0 cs ih =>
    intro c h
    by_cases hp : p c0
    · rw [countWhile_cons, if_pos hp] at h
      exact ih c h
    · rw [countWhile_cons, if_neg hp] at h
      simp at h
      subst h
      simpa using hp

theorem contains_iff_mem (l : List Char) (c : Char) : l.contains c = true ↔ c ∈ l :=
  List.elem_iff

theorem le_scanOverPos (text valid : List Char) (a : Nat) : a ≤ scanOverPos text valid a :=
  Nat.le_add_right a _

theorem le_scanUntilPos (text stopAt : List Char) (a : Nat) : a ≤ scanUntilPos text stopAt a :=
  Nat.le_add_right a _

theorem scanOverPos_le_length (text valid : List Char) (a : Nat) (h : a ≤ text.length) :
    scanOverPos text valid a ≤ text.length := by
  have h2 := countWhile_le (fun c => valid.contains c) (text.drop a)
  rw [List.length_drop] at h2
  unfold scanOverPos
  omega

theorem scanUntilPos_le_length (text stopAt : List Char) (a : Nat) (h : a ≤ text.length) :
    scanUntilPos text stopAt a ≤ text.length := by
  have h2 := countWhile_le (fun c => !stopAt.contains c) (text.drop a)
  rw [List.length_drop] at h2
  unfold scanUntilPos
  omega

theorem slice_scanOver_all (text valid : List Char) (a : Nat) :
    (slice text a (scanOverPos text valid a)).all (fun c => valid.contains c) = true := by
  unfold slice scanOverPos
  rw [Nat.add_sub_cancel_left]
  exact countWhile_take_all _ _

theorem slice_scanUntil_all (text stopAt : List Char) (a : Nat) :
    (slice text a (scanUntilPos text stopAt a)).all (fun c => !stopAt.contains c) = true := by
  unfold slice scanUntilPos
  rw [Nat.add_sub_cancel_left]
  exact countWhile_take_all _ _

theorem all_imp {p q : Char → Bool} (l : List Char) (h : l.all p = true)
    (himp : ∀ c, p c = true → q c = true) : l.all q = true := by
  rw [List.all_eq_true] at h ⊢
  exact fun x hx => himp x (h x hx)


/-! ### Slices and newline counting -/

theorem slice_cons (text : List Char) (a b : Nat) (c : Char)
    (h : text.get? a = some c) (hab : a < b) :
    slice text a b = c :: slice text (a + 1) b := by
  obtain ⟨hlen, hget⟩ := List.get?_eq_some.mp h
  unfold slice
  rw [List.drop_eq_getElem_cons hlen]
  rw [show b - a = (b - (a + 1)) + 1 from by omega]
  rw [List.take_succ_cons]
  simp [← hget, List.get_eq_getElem]

theorem slice_succ (text : List Char) (a : Nat) (c : Char)
    (h : text.get? a = some c) :
    slice text a (a + 1) = [c] := by
  rw [slice_cons text a (a + 1) c h (by omega)]
  simp [slice]

theorem slice_two (text : List Char) (a : Nat) (c1 c2 : Char)
    (h1 : text.get? a = some c1) (h2 : text.get? (a + 1) = some c2) :
    slice text a (a + 2) = [c1, c2] := by
  rw [slice_cons text a (a + 2) c1 h1 (by omega)]
  rw [show a + 2 = (a + 1) + 1 from rfl, slice_succ text (a + 1) c2 h2]

theorem slice_snoc (text : List Char) (a b : Nat) (c : Char)
    (h : text.get? b = some c) (hab : a ≤ b) :
    slice text a (b + 1) = slice text a b ++ [c] := by
  unfold slice
  rw [show b + 1 - a = (b - a) + 1 from by omega]
  rw [List.take_succ]
  have h2 : (text.drop a)[b - a]? = some c := by
    rw [List.getElem?_drop, show a + (b - a) = b from by omega]
    rw [← List.get?_eq_getElem?]
    exact h
  rw [h2]
  rfl

theorem nlSeqCount_cons_other (c : Char) (cs : List Char)
    (hr : c ≠ '\r') (hn : c ≠ '\n') :
    nlSeqCount (c :: cs) = nlSeqCount cs := by
  simp [nlSeqCount, hr, hn]

theorem nlSeqCount_eq_zero_of_all :
    ∀ l : List Char, l.all (fun c => !isNlChar c) = true → nlSeqCount l = 0 := by
  intro l
  induction l with
  | nil => intro _; rfl
  | cons c cs ih =>
    intro h
    simp only [List.all_cons, Bool.and_eq_true] at h
    obtain ⟨hc, hcs⟩ := h
    have hr : c ≠ '\r' := by
      intro e; subst e; simp [isNlChar] at hc
    have hn : c ≠ '\n' := by
      intro e; subst e; simp [isNlChar] at hc
    rw [nlSeqCount_cons_other c cs hr hn]
    exact ih hcs

theorem scanOver_slice_not_nl (text valid : List Char) (a : Nat)
    (hv : ∀ c ∈ valid, isNlChar c = false) :
    (slice text a (scanOverPos text valid a)).all (fun c => !isNlChar c) = true := by
  refine all_imp _ (slice_scanOver_all text valid a) ?_
  intro c hc
  have := hv c ((contains_iff_mem valid c).mp hc)
  simp [this]

theorem scanUntil_slice_not_nl (text stopAt : List Char) (a : Nat)
    (hr : '\r' ∈ stopAt) (hn : '\n' ∈ stopAt) :
    (slice text a (scanUntilPos text stopAt a)).all (fun c => !isNlChar c) = true := by
  refine all_imp _ (slice_scanUntil_all text stopAt a) ?_
  intro c hc
  rw [Bool.not_eq_true'] at hc
  rw [Bool.not_eq_true']
  by_contra hne
  rw [Bool.not_eq_false] at hne
  rw [isNlChar, Bool.or_eq_true] at hne
  rcases hne with h | h
  · have : c = '\r' := by simpa using h
    subst this
    rw [(contains_iff_mem stopAt '\r').mpr hr] at hc
    simp at hc
  · have : c = '\n' := by simpa using h
    subst this
    rw [(contains_iff_mem stopAt '\n').mpr hn] at hc
    simp at hc

theorem digits_not_nl : ∀ c ∈ CHAR_DIGIT_, isNlChar c = false := by decide

theorem hex_not_nl : ∀ c ∈ CHAR_HEXDIGIT_, isNlChar c = false := by decide

theorem cont_not_nl : ∀ c ∈ CHAR_NAME_CONTINUATION_, isNlChar c = false := by decide

theorem slice_all_not_nl_cons (text : List Char) (start p : Nat) (c : Char)
    (hget : text.get? start = some c) (hlt : start < p)
    (hc : isNlChar c = false)
    (hrest : (slice text (start + 1) p).all (fun c => !isNlChar c) = true) :
    (slice text start p).all (fun c => !isNlChar c) = true := by
  rw [slice_cons text start p c hget hlt]
  simp [List.all_cons, hc, hrest]

theorem scanOverPos_eq_self (text valid : List Char) (a : Nat) (c : Char)
    (hget : text.get? a = some c) (hc : valid.contains c = false) :
    scanOverPos text valid a = a := by
  obtain ⟨hlen, hg⟩ := List.get?_eq_some.mp hget
  unfold scanOverPos
  rw [List.drop_eq_getElem_cons hlen, countWhile_cons]
  have h2 : valid.contains text[a] = false := by
    rw [show (text[a] : Char) = c from by simpa [List.get_eq_getElem] using hg]
    exact hc
  rw [h2]
  simp


/-! ## One-step guarantees of the scanner branch cascade -/

theorem namestart_not_nl : ∀ c ∈ CHAR_NAME_START_, isNlChar c = false := by decide

theorem symbol_not_nl : ∀ c ∈ CHAR_SYMBOL_, isNlChar c = false := by decide

theorem xX_not_nl : ∀ c ∈ (['x', 'X'] : List Char), isNlChar c = false := by decide

theorem andNextIn_true {cur c0 : Char} {nextc : Option Char} {set : List Char}
    (h : andNextIn cur c0 nextc set = .ok true) :
    cur = c0 ∧ ∃ d, nextc = some d ∧ set.contains d = true := by
  unfold andNextIn at h
  split at h
  · rename_i hc
    split at h
    · exact absurd h (by simp)
    · rename_i d
      refine ⟨hc, d, rfl, ?_⟩
      injection h with h2
  · exact absurd h (by simp)

theorem not_nl_of_contains {set : List Char} {c : Char}
    (hset : ∀ x ∈ set, isNlChar x = false) (hc : set.contains c = true) :
    isNlChar c = false :=
  hset c ((contains_iff_mem set c).mp hc)

theorem stepSpec_of_scan (st : LexerState) (start P : Nat) (location : Location)
    (ty : TokenType) (v : TokVal)
    (hty1 : ty ≠ .NEWLINE)
    (hsp : start ≤ P) (hls : st.line_start_ ≤ start)
    (hnl : nlSeqCount (slice st.text_ start P) = 0) :
    StepSpec st start location ⟨ty, v, location⟩ { st with pos_ := P } := by
  refine ⟨rfl, hsp, rfl, rfl, Nat.le_trans hls hsp, Nat.le_refl _, ?_, ?_⟩
  · intro he
    exact absurd he hty1
  · intro _ _
    exact ⟨rfl, rfl, hnl⟩

theorem stepSpec_of_scan_mode (st : LexerState) (start P : Nat)
    (location : Location) (ty : TokenType) (v : TokVal) (m : Mode)
    (hty1 : ty ≠ .NEWLINE)
    (hsp : start ≤ P) (hls : st.line_start_ ≤ start)
    (hnl : nlSeqCount (slice st.text_ start P) = 0) :
    StepSpec st start location ⟨ty, v, location⟩ { st with pos_ := P, mode_ := m } := by
  refine ⟨rfl, hsp, rfl, rfl, Nat.le_trans hls hsp, Nat.le_refl _, ?_, ?_⟩
  · intro he
    exact absurd he hty1
  · intro _ _
    exact ⟨rfl, rfl, hnl⟩

theorem stepSpec_filename (st : LexerState) (start P : Nat)
    (location : Location) (v : TokVal)
    (hsp : start ≤ P) (hls : st.line_start_ ≤ start) :
    StepSpec st start location ⟨.FILENAME, v, location⟩
      { st with pos_ := P, mode_ := .NORMAL } := by
  refine ⟨rfl, hsp, rfl, rfl, Nat.le_trans hls hsp, Nat.le_refl _, ?_, ?_⟩
  · intro he
    exact nomatch he
  · intro _ he2
    exact absurd rfl he2

theorem stepSpec_newline (st : LexerState) (start P : Nat) (location : Location)
    (hsp : start ≤ P)
    (hnl : nlSeqCount (slice st.text_ start P) = 1) :
    StepSpec st start location ⟨.NEWLINE, .none, location⟩
      { st with pos_ := P, line_ := st.line_ + 1, line_start_ := P } := by
  refine ⟨rfl, hsp, rfl, rfl, Nat.le_refl _, Nat.le_succ _, ?_, ?_⟩
  · intro _
    exact ⟨rfl, hnl⟩
  · intro hne _
    exact absurd rfl hne

theorem scanCID_spec (st : LexerState) (start : Nat) (location : Location)
    (tok : Tok) (st' : LexerState)
    (hcur : st.text_.get? start = some '\\')
    (hls : st.line_start_ ≤ start)
    (h : scanCID st start location = .ok (tok, st')) :
    StepSpec st start location tok st' := by
  unfold scanCID at h
  split at h
  · cases h
    have hle := le_scanOverPos st.text_ CHAR_DIGIT_ (start + 1)
    refine stepSpec_of_scan st start _ location _ _ (fun he => nomatch he)
      (by omega) hls ?_
    refine nlSeqCount_eq_zero_of_all _ ?_
    refine slice_all_not_nl_cons st.text_ start _ _ hcur (by omega) (by decide) ?_
    exact scanOver_slice_not_nl st.text_ CHAR_DIGIT_ (start + 1) digits_not_nl
  · exact absurd h (by simp)

theorem scanGlyphClass_spec (st : LexerState) (start : Nat) (location : Location)
    (tok : Tok) (st' : LexerState)
    (hcur : st.text_.get? start = some '@')
    (hls : st.line_start_ ≤ start)
    (h : scanGlyphClass st start location = .ok (tok, st')) :
    StepSpec st start location tok st' := by
  unfold scanGlyphClass at h
  split at h
  · exact absurd h (by simp)
  · split at h
    · exact absurd h (by simp)
    · split at h
      · exact absurd h (by simp)
      · cases h
        have hle := le_scanOverPos st.text_ CHAR_NAME_CONTINUATION_ (start + 1)
        refine stepSpec_of_scan st start _ location _ _ (fun he => nomatch he)
          (by omega) hls ?_
        refine nlSeqCount_eq_zero_of_all _ ?_
        refine slice_all_not_nl_cons st.text_ start _ _ hcur (by omega) (by decide) ?_
        exact scanOver_slice_not_nl st.text_ CHAR_NAME_CONTINUATION_ (start + 1) cont_not_nl

theorem scanName_spec (st : LexerState) (start : Nat) (cur : Char)
    (location : Location) (tok : Tok) (st' : LexerState)
    (hcur : st.text_.get? start = some cur)
    (hcnl : isNlChar cur = false)
    (hls : st.line_start_ ≤ start)
    (h : scanName st start location = .ok (tok, st')) :
    StepSpec st start location tok st' := by
  unfold scanName at h
  have hle := le_scanOverPos st.text_ CHAR_NAME_CONTINUATION_ (start + 1)
  have hnl : nlSeqCount (slice st.text_ start
      (scanOverPos st.text_ CHAR_NAME_CONTINUATION_ (start + 1))) = 0 := by
    refine nlSeqCount_eq_zero_of_all _ ?_
    refine slice_all_not_nl_cons st.text_ start _ _ hcur (by omega) hcnl ?_
    exact scanOver_slice_not_nl st.text_ CHAR_NAME_CONTINUATION_ (start + 1) cont_not_nl
  split at h
  · cases h
    exact stepSpec_of_scan_mode st start _ location _ _ _ (fun he => nomatch he)
      (by omega) hls hnl
  · cases h
    exact stepSpec_of_scan st start _ location _ _ (fun he => nomatch he)
      (by omega) hls hnl

theorem scanHex_spec (st : LexerState) (start : Nat) (d : Char)
    (location : Location) (tok : Tok) (st' : LexerState)
    (hcur : st.text_.get? start = some '0')
    (hd : st.text_.get? (start + 1) = some d)
    (hdnl : isNlChar d = false)
    (hls : st.line_start_ ≤ start)
    (h : scanHex st start location = .ok (tok, st')) :
    StepSpec st start location tok st' := by
  unfold scanHex at h
  split at h
  · cases h
    have hle := le_scanOverPos st.text_ CHAR_HEXDIGIT_ (start + 2)
    refine stepSpec_of_scan st start _ location _ _ (fun he => nomatch he)
      (by omega) hls ?_
    refine nlSeqCount_eq_zero_of_all _ ?_
    refine slice_all_not_nl_cons st.text_ start _ _ hcur (by omega) (by decide) ?_
    refine slice_all_not_nl_cons st.text_ (start + 1) _ d hd (by omega) hdnl ?_
    exact scanOver_slice_not_nl st.text_ CHAR_HEXDIGIT_ (start + 1 + 1) hex_not_nl
  · exact absurd h (by simp)

theorem scanDecimal_spec (st : LexerState) (start : Nat) (location : Location)
    (tok : Tok) (st' : LexerState)
    (hls : st.line_start_ ≤ start)
    (h : scanDecimal st start location = .ok (tok, st')) :
    StepSpec st start location tok st' := by
  unfold scanDecimal at h
  split at h
  · cases h
    have hle := le_scanOverPos st.text_ CHAR_DIGIT_ start
    refine stepSpec_of_scan st start _ location _ _ (fun he => nomatch he)
      hle hls ?_
    exact nlSeqCount_eq_zero_of_all _
      (scanOver_slice_not_nl st.text_ CHAR_DIGIT_ start digits_not_nl)
  · exact absurd h (by simp)

theorem scanNegNumber_spec (st : LexerState) (start : Nat) (location : Location)
    (tok : Tok) (st' : LexerState)
    (hcur : st.text_.get? start = some '-')
    (hls : st.line_start_ ≤ start)
    (h : scanNegNumber st start location = .ok (tok, st')) :
    StepSpec st start location tok st' := by
  unfold scanNegNumber at h
  split at h
  · cases h
    have hle := le_scanOverPos st.text_ CHAR_DIGIT_ (start + 1)
    refine stepSpec_of_scan st start _ location _ _ (fun he => nomatch he)
      (by omega) hls ?_
    refine nlSeqCount_eq_zero_of_all _ ?_
    refine slice_all_not_nl_cons st.text_ start _ _ hcur (by omega) (by decide) ?_
    exact scanOver_slice_not_nl st.text_ CHAR_DIGIT_ (start + 1) digits_not_nl
  · exact absurd h (by simp)

theorem scanString_spec (st : LexerState) (start : Nat) (location : Location)
    (tok : Tok) (st' : LexerState)
    (hcur : st.text_.get? start = some '"')
    (hls : st.line_start_ ≤ start)
    (h : scanString st start location = .ok (tok, st')) :
    StepSpec st start location tok st' := by
  unfold scanString at h
  split at h
  · rename_i c2 hget2
    split at h
    · rename_i hc2
      subst hc2
      cases h
      have hle := le_scanUntilPos st.text_ ['"', '\r', '\n'] (start + 1)
      refine stepSpec_of_scan st start _ location _ _ (fun he => nomatch he)
        (by omega) hls ?_
      refine nlSeqCount_eq_zero_of_all _ ?_
      rw [slice_snoc st.text_ start _ _ hget2 (by omega)]
      rw [List.all_append]
      refine Bool.and_eq_true_iff.mpr ⟨?_, by decide⟩
      refine slice_all_not_nl_cons st.text_ start _ _ hcur (by omega) (by decide) ?_
      exact scanUntil_slice_not_nl st.text_ ['"', '\r', '\n'] (start + 1)
        (by decide) (by decide)
    · exact absurd h (by simp)
  · exact absurd h (by simp)

theorem scanFileName_spec (st : LexerState) (start : Nat) (cur : Char)
    (location : Location) (tok : Tok) (st' : LexerState)
    (hls : st.line_start_ ≤ start)
    (h : scanFileName st start cur location = .ok (tok, st')) :
    StepSpec st start location tok st' := by
  unfold scanFileName at h
  split at h
  · exact absurd h (by simp)
  · split at h
    · split at h
      · cases h
        have hle := le_scanUntilPos st.text_ [')'] start
        exact stepSpec_filename st start _ location _ (by omega) hls
      · exact absurd h (by simp)
    · exact absurd h (by simp)

theorem nextMinusSymbol_spec (st : LexerState) (start : Nat) (cur : Char)
    (nextc : Option Char) (location : Location) (tok : Tok) (st' : LexerState)
    (hcur : st.text_.get? start = some cur)
    (hls : st.line_start_ ≤ start)
    (h : nextMinusSymbol st start cur nextc location = .ok (tok, st')) :
    StepSpec st start location tok st' := by
  unfold nextMinusSymbol at h
  split at h
  · exact absurd h (by simp)
  · rename_i hand
    obtain ⟨hcq, _, _, _⟩ := andNextIn_true hand
    subst hcq
    exact scanNegNumber_spec st start location tok st' hcur hls h
  · split at h
    · rename_i hsym
      cases h
      refine stepSpec_of_scan st start _ location _ _ (fun he => nomatch he)
        (by omega) hls ?_
      refine nlSeqCount_eq_zero_of_all _ ?_
      rw [slice_succ st.text_ start _ hcur]
      simp [not_nl_of_contains symbol_not_nl hsym]
    · split at h
      · rename_i hq
        subst hq
        exact scanString_spec st start location tok st' hcur hls h
      · exact absurd h (by simp)

theorem nextNumberish_spec (st : LexerState) (start : Nat) (cur : Char)
    (nextc : Option Char) (location : Location) (tok : Tok) (st' : LexerState)
    (hcur : st.text_.get? start = some cur)
    (hnext : nextc = st.text_.get? (start + 1))
    (hls : st.line_start_ ≤ start)
    (h : nextNumberish st start cur nextc location = .ok (tok, st')) :
    StepSpec st start location tok st' := by
  unfold nextNumberish at h
  split at h
  · exact absurd h (by simp)
  · rename_i hand
    obtain ⟨hcq, d, hd, hdset⟩ := andNextIn_true hand
    subst hcq
    exact scanHex_spec st start d location tok st' hcur (hd ▸ hnext).symm
      (not_nl_of_contains xX_not_nl hdset) hls h
  · split at h
    · exact scanDecimal_spec st start location tok st' hls h
    · exact nextMinusSymbol_spec st start cur nextc location tok st' hcur hls h

theorem nextNormal_spec (st : LexerState) (start : Nat) (cur : Char)
    (nextc : Option Char) (location : Location) (tok : Tok) (st' : LexerState)
    (hcur : st.text_.get? start = some cur)
    (hnext : nextc = st.text_.get? (start + 1))
    (hls : st.line_start_ ≤ start)
    (h : nextNormal st start cur nextc location = .ok (tok, st')) :
    StepSpec st start location tok st' := by
  unfold nextNormal at h
  split at h
  · exact absurd h (by simp)
  · rename_i hand
    obtain ⟨hcq, _, _, _⟩ := andNextIn_true hand
    subst hcq
    exact scanCID_spec st start location tok st' hcur hls h
  · split at h
    · rename_i hat
      subst hat
      exact scanGlyphClass_spec st start location tok st' hcur hls h
    · split at h
      · rename_i hns
        exact scanName_spec st start cur location tok st' hcur
          (not_nl_of_contains namestart_not_nl hns) hls h
      · exact nextNumberish_spec st start cur nextc location tok st' hcur hnext hls h

theorem nextAt_spec (st : LexerState) (start : Nat) (cur : Char)
    (nextc : Option Char) (location : Location) (tok : Tok) (st' : LexerState)
    (hcur : st.text_.get? start = some cur)
    (hnext : nextc = st.text_.get? (start + 1))
    (hls : st.line_start_ ≤ start)
    (h : nextAt st start cur nextc location = .ok (tok, st')) :
    StepSpec st start location tok st' := by
  unfold nextAt at h
  split at h
  · rename_i hnl
    subst hnl
    cases h
    refine stepSpec_newline st start _ location (by omega) ?_
    rw [slice_succ st.text_ start _ hcur]
    decide
  · split at h
    · rename_i hcr
      subst hcr
      by_cases hn2 : nextc = some '\n'
      · simp only [if_pos hn2] at h
        cases h
        refine stepSpec_newline st start _ location (by omega) ?_
        rw [slice_two st.text_ start _ '\n' hcur (hn2 ▸ hnext).symm]
        decide
      · simp only [if_neg hn2] at h
        cases h
        refine stepSpec_newline st start _ location (by omega) ?_
        rw [slice_succ st.text_ start _ hcur]
        decide
    · split at h
      · cases h
        have hle := le_scanUntilPos st.text_ CHAR_NEWLINE_ start
        refine stepSpec_of_scan st start _ location _ _ (fun he => nomatch he)
          hle hls ?_
        exact nlSeqCount_eq_zero_of_all _
          (scanUntil_slice_not_nl st.text_ CHAR_NEWLINE_ start (by decide) (by decide))
      · split at h
        · exact scanFileName_spec st start cur location tok st' hls h
        · exact nextNormal_spec st start cur nextc location tok st' hcur hnext hls h


theorem next_ok_spec (st : LexerState) (tok : Tok) (st' : LexerState)
    (hls : st.line_start_ ≤ st.pos_)
    (h : next_ st = .ok (tok, st')) :
    tok.loc = ⟨st.filename_, st.line_, (wsPos st : Int) - (st.line_start_ : Int) + 1⟩ ∧
    wsPos st < st.text_.length ∧
    (slice st.text_ st.pos_ (wsPos st)).all (fun c => CHAR_WHITESPACE_.contains c) = true ∧
    st.pos_ ≤ wsPos st ∧
    wsPos st ≤ st'.pos_ ∧ st'.text_ = st.text_ ∧ st'.filename_ = st.filename_ ∧
    st'.line_start_ ≤ st'.pos_ ∧ st.line_ ≤ st'.line_ ∧
    (tok.ttype = .NEWLINE →
      st'.line_ = st.line_ + 1 ∧ nlSeqCount (slice st.text_ (wsPos st) st'.pos_) = 1) ∧
    (tok.ttype ≠ .NEWLINE → tok.ttype ≠ .FILENAME →
      st'.line_ = st.line_ ∧ st'.line_start_ = st.line_start_ ∧
      nlSeqCount (slice st.text_ (wsPos st) st'.pos_) = 0) := by
  unfold next_ at h
  split at h
  · rename_i hlt
    have spec := nextAt_spec { st with pos_ := wsPos st } (wsPos st)
      (st.text_.get ⟨wsPos st, hlt⟩) (st.text_.get? (wsPos st + 1))
      ⟨st.filename_, st.line_, (wsPos st : Int) - (st.line_start_ : Int) + 1⟩
      tok st' (List.get?_eq_get hlt) rfl
      (Nat.le_trans hls (le_scanOverPos st.text_ CHAR_WHITESPACE_ st.pos_)) h
    obtain ⟨s1, s2, s3, s4, s5, s6, s7, s8⟩ := spec
    exact ⟨s1, hlt, slice_scanOver_all st.text_ CHAR_WHITESPACE_ st.pos_,
      le_scanOverPos st.text_ CHAR_WHITESPACE_ st.pos_, s2, s3, s4, s5, s6, s7, s8⟩
  · exact absurd h (by simp)

/-! ### Error locations: every `FeatureLibError` raised inside `next_` carries
the location captured after the whitespace skip. -/

theorem andNextIn_error {cur c0 : Char} {nextc : Option Char} {set : List Char}
    {e : ScanErr} (h : andNextIn cur c0 nextc set = .error e) : e = .typeError := by
  unfold andNextIn at h
  split at h
  · split at h
    · injection h with h2
      exact h2.symm
    · exact absurd h (by simp)
  · exact absurd h (by simp)

theorem scanCID_err (st : LexerState) (start : Nat) (location : Location)
    (m : LexMsg) (loc : Location)
    (h : scanCID st start location = .error (.lexError m loc)) : loc = location ∧ scannerMsg m = true := by
  unfold scanCID at h
  split at h
  · exact absurd h (by simp)
  · exact absurd h (by simp)

theorem scanGlyphClass_err (st : LexerState) (start : Nat) (location : Location)
    (m : LexMsg) (loc : Location)
    (h : scanGlyphClass st start location = .error (.lexError m loc)) : loc = location ∧ scannerMsg m = true := by
  unfold scanGlyphClass at h
  split at h
  · simp only [Except.error.injEq, ScanErr.lexError.injEq] at h
    obtain ⟨hm, hl⟩ := h
    subst hm
    exact ⟨hl.symm, rfl⟩
  · split at h
    · simp only [Except.error.injEq, ScanErr.lexError.injEq] at h
      obtain ⟨hm, hl⟩ := h
      subst hm
      exact ⟨hl.symm, rfl⟩
    · split at h
      · simp only [Except.error.injEq, ScanErr.lexError.injEq] at h
        obtain ⟨hm, hl⟩ := h
        subst hm
        exact ⟨hl.symm, rfl⟩
      · exact absurd h (by simp)

theorem scanName_err (st : LexerState) (start : Nat) (location : Location)
    (m : LexMsg) (loc : Location)
    (h : scanName st start location = .error (.lexError m loc)) : loc = location ∧ scannerMsg m = true := by
  unfold scanName at h
  split at h
  · exact absurd h (by simp)
  · exact absurd h (by simp)

theorem scanHex_err (st : LexerState) (start : Nat) (location : Location)
    (m : LexMsg) (loc : Location)
    (h : scanHex st start location = .error (.lexError m loc)) : loc = location ∧ scannerMsg m = true := by
  unfold scanHex at h
  split at h
  · exact absurd h (by simp)
  · exact absurd h (by simp)

theorem scanDecimal_err (st : LexerState) (start : Nat) (location : Location)
    (m : LexMsg) (loc : Location)
    (h : scanDecimal st start location = .error (.lexError m loc)) : loc = location ∧ scannerMsg m = true := by
  unfold scanDecimal at h
  split at h
  · exact absurd h (by simp)
  · exact absurd h (by simp)

theorem scanNegNumber_err (st : LexerState) (start : Nat) (location : Location)
    (m : LexMsg) (loc : Location)
    (h : scanNegNumber st start location = .error (.lexError m loc)) : loc = location ∧ scannerMsg m = true := by
  unfold scanNegNumber at h
  split at h
  · exact absurd h (by simp)
  · exact absurd h (by simp)

theorem scanString_err (st : LexerState) (start : Nat) (location : Location)
    (m : LexMsg) (loc : Location)
    (h : scanString st start location = .error (.lexError m loc)) : loc = location ∧ scannerMsg m = true := by
  unfold scanString at h
  split at h
  · split at h
    · exact absurd h (by simp)
    · simp only [Except.error.injEq, ScanErr.lexError.injEq] at h
      obtain ⟨hm, hl⟩ := h
      subst hm
      exact ⟨hl.symm, rfl⟩
  · simp only [Except.error.injEq, ScanErr.lexError.injEq] at h
    obtain ⟨hm, hl⟩ := h
    subst hm
    exact ⟨hl.symm, rfl⟩

theorem scanFileName_err (st : LexerState) (start : Nat) (cur : Char)
    (location : Location) (m : LexMsg) (loc : Location)
    (h : scanFileName st start cur location = .error (.lexError m loc)) : loc = location ∧ scannerMsg m = true := by
  unfold scanFileName at h
  split at h
  · simp only [Except.error.injEq, ScanErr.lexError.injEq] at h
    obtain ⟨hm, hl⟩ := h
    subst hm
    exact ⟨hl.symm, rfl⟩
  · split at h
    · split at h
      · exact absurd h (by simp)
      · simp only [Except.error.injEq, ScanErr.lexError.injEq] at h
        obtain ⟨hm, hl⟩ := h
        subst hm
        exact ⟨hl.symm, rfl⟩
    · simp only [Except.error.injEq, ScanErr.lexError.injEq] at h
      obtain ⟨hm, hl⟩ := h
      subst hm
      exact ⟨hl.symm, rfl⟩

theorem nextMinusSymbol_err (st : LexerState) (start : Nat) (cur : Char)
    (nextc : Option Char) (location : Location) (m : LexMsg) (loc : Location)
    (h : nextMinusSymbol st start cur nextc location = .error (.lexError m loc)) :
    loc = location ∧ scannerMsg m = true := by
  unfold nextMinusSymbol at h
  split at h
  · rename_i e heq
    injection h with h2
    rw [andNextIn_error heq] at h2
    exact nomatch h2
  · exact scanNegNumber_err st start location m loc h
  · split at h
    · exact absurd h (by simp)
    · split at h
      · exact scanString_err st start location m loc h
      · simp only [Except.error.injEq, ScanErr.lexError.injEq] at h
        obtain ⟨hm, hl⟩ := h
        subst hm
        exact ⟨hl.symm, rfl⟩

theorem nextNumberish_err (st : LexerState) (start : Nat) (cur : Char)
    (nextc : Option Char) (location : Location) (m : LexMsg) (loc : Location)
    (h : nextNumberish st start cur nextc location = .error (.lexError m loc)) :
    loc = location ∧ scannerMsg m = true := by
  unfold nextNumberish at h
  split at h
  · rename_i e heq
    injection h with h2
    rw [andNextIn_error heq] at h2
    exact nomatch h2
  · exact scanHex_err st start location m loc h
  · split at h
    · exact scanDecimal_err st start location m loc h
    · exact nextMinusSymbol_err st start cur nextc location m loc h

theorem nextNormal_err (st : LexerState) (start : Nat) (cur : Char)
    (nextc : Option Char) (location : Location) (m : LexMsg) (loc : Location)
    (h : nextNormal st start cur nextc location = .error (.lexError m loc)) :
    loc = location ∧ scannerMsg m = true := by
  unfold nextNormal at h
  split at h
  · rename_i e heq
    injection h with h2
    rw [andNextIn_error heq] at h2
    exact nomatch h2
  · exact scanCID_err st start location m loc h
  · split at h
    · exact scanGlyphClass_err st start location m loc h
    · split at h
      · exact scanName_err st start location m loc h
      · exact nextNumberish_err st start cur nextc location m loc h

theorem nextAt_err (st : LexerState) (start : Nat) (cur : Char)
    (nextc : Option Char) (location : Location) (m : LexMsg) (loc : Location)
    (h : nextAt st start cur nextc location = .error (.lexError m loc)) :
    loc = location ∧ scannerMsg m = true := by
  unfold nextAt at h
  split at h
  · exact absurd h (by simp)
  · split at h
    · exact absurd h (by simp)
    · split at h
      · exact absurd h (by simp)
      · split at h
        · exact scanFileName_err st start cur location m loc h
        · exact nextNormal_err st start cur nextc location m loc h

theorem next_err_loc (st : LexerState) (m : LexMsg) (loc : Location)
    (h : next_ st = .error (.lexError m loc)) :
    loc = ⟨st.filename_, st.line_, (wsPos st : Int) - (st.line_start_ : Int) + 1⟩ ∧
      scannerMsg m = true := by
  unfold next_ at h
  split at h
  · exact nextAt_err _ _ _ _ _ m loc h
  · exact absurd h (by simp)

/-! ### Well-formedness and positive locations -/

theorem WF_init (text filename : String) : WF (Lexer.init text filename) :=
  ⟨Nat.le_refl 0, Nat.le_refl 1⟩

theorem next_ok_wf (st : LexerState) (tok : Tok) (st' : LexerState)
    (hwf : WF st) (h : next_ st = .ok (tok, st')) :
    (1 ≤ tok.loc.line ∧ 1 ≤ tok.loc.col) ∧ WF st' := by
  obtain ⟨hls, hline⟩ := hwf
  obtain ⟨hloc, _, _, hp1, _, _, _, hls2, hline2, _, _⟩ := next_ok_spec st tok st' hls h
  refine ⟨⟨?_, ?_⟩, hls2, Nat.le_trans hline hline2⟩
  · rw [hloc]
    exact hline
  · rw [hloc]
    show (1 : Int) ≤ (wsPos st : Int) - (st.line_start_ : Int) + 1
    have hws : st.line_start_ ≤ wsPos st := Nat.le_trans hls hp1
    omega

theorem next_err_pos (st : LexerState) (m : LexMsg) (loc : Location)
    (hwf : WF st) (h : next_ st = .error (.lexError m loc)) :
    1 ≤ loc.line ∧ 1 ≤ loc.col := by
  obtain ⟨hls, hline⟩ := hwf
  rw [(next_err_loc st m loc h).1]
  refine ⟨hline, ?_⟩
  show (1 : Int) ≤ (wsPos st : Int) - (st.line_start_ : Int) + 1
  have hws : st.line_start_ ≤ wsPos st :=
    Nat.le_trans hls (le_scanOverPos st.text_ CHAR_WHITESPACE_ st.pos_)
  omega

theorem lexerNext_ok_wf :
    ∀ (fuel : Nat) (st : LexerState) (tok : Tok) (st' : LexerState),
      WF st → lexerNext fuel st = .ok (tok, st') →
      (1 ≤ tok.loc.line ∧ 1 ≤ tok.loc.col) ∧ WF st' := by
  intro fuel
  induction fuel with
  | zero => intro st tok st' _ h; simp [lexerNext] at h
  | succ f ih =>
    intro st tok st' hwf h
    rw [lexerNext] at h
    split at h
    · exact absurd h (by simp)
    · rename_i tok0 st0 heq
      split at h
      · exact ih st0 tok st' (next_ok_wf st tok0 st0 hwf heq).2 h
      · cases h
        exact next_ok_wf st tok st' hwf heq

theorem lexerNext_err_pos :
    ∀ (fuel : Nat) (st : LexerState) (m : LexMsg) (loc : Location),
      WF st → lexerNext fuel st = .error (.lexError m loc) →
      1 ≤ loc.line ∧ 1 ≤ loc.col := by
  intro fuel
  induction fuel with
  | zero => intro st m loc _ h; simp [lexerNext] at h
  | succ f ih =>
    intro st m loc hwf h
    rw [lexerNext] at h
    split at h
    · rename_i e heq
      injection h with h2
      subst h2
      exact next_err_pos st m loc hwf heq
    · rename_i tok0 st0 heq
      split at h
      · exact ih st0 m loc (next_ok_wf st tok0 st0 hwf heq).2 h
      · exact absurd h (by simp)


theorem make_lexer_err (fs : FS) (p : String) (loc : Location) (m : LexMsg)
    (loc' : Location) (h : make_lexer_ fs p loc = .error (.lexError m loc')) :
    loc' = loc := by
  unfold make_lexer_ at h
  split at h
  · exact absurd h (by simp)
  · simp only [Except.error.injEq, ScanErr.lexError.injEq] at h
    exact h.2.symm

theorem make_lexer_wf (fs : FS) (p : String) (loc : Location) (lx : LexerState)
    (h : make_lexer_ fs p loc = .ok lx) : WF lx := by
  unfold make_lexer_ at h
  split at h
  · cases h
    exact WF_init _ _
  · exact absurd h (by simp)

theorem inclNext_pos (fs : FS) (lexFuel : Nat) :
    ∀ (fuel : Nat) (stack : List LexerState),
      (∀ lx ∈ stack, WF lx) →
      (∀ (tok : Tok) (stack' : List LexerState),
         inclNext fs lexFuel fuel stack = .ok (tok, stack') →
         (1 ≤ tok.loc.line ∧ 1 ≤ tok.loc.col) ∧ ∀ lx ∈ stack', WF lx) ∧
      (∀ (m : LexMsg) (loc : Location),
         inclNext fs lexFuel fuel stack = .error (.lexError m loc) →
         1 ≤ loc.line ∧ 1 ≤ loc.col) := by
  intro fuel
  induction fuel with
  | zero =>
    intro stack _
    constructor
    · intro tok stack' h
      simp [inclNext] at h
    · intro m loc h
      simp [inclNext] at h
  | succ f ih =>
    intro stack hwf
    match stack with
    | [] =>
      constructor
      · intro tok stack' h
        simp [inclNext] at h
      · intro m loc h
        simp [inclNext] at h
    | lexer :: rest =>
      have hwlex : WF lexer := hwf lexer (by simp)
      have hwrest : ∀ lx ∈ rest, WF lx := fun lx hlx => hwf lx (by simp [hlx])
      constructor
      · intro tok stack' h
        rw [inclNext] at h
        split at h
        · exact (ih rest hwrest).1 tok stack' h
        · exact absurd h (by simp)
        · rename_i tok0 lexer1 heq
          have h1 := lexerNext_ok_wf lexFuel lexer tok0 lexer1 hwlex heq
          split at h
          · split at h
            · exact absurd h (by simp)
            · rename_i ftok lexer2 heq2
              have h2w := lexerNext_ok_wf lexFuel lexer1 ftok lexer2 h1.2 heq2
              split at h
              · exact absurd h (by simp)
              · split at h
                · exact absurd h (by simp)
                · rename_i stok lexer3 heq3
                  have h3w := lexerNext_ok_wf lexFuel lexer2 stok lexer3 h2w.2 heq3
                  split at h
                  · exact absurd h (by simp)
                  · split at h
                    · exact absurd h (by simp)
                    · dsimp only at h
                      split at h
                      · exact absurd h (by simp)
                      · rename_i newLex heq4
                        refine (ih _ ?_).1 tok stack' h
                        intro lx hlx
                        rw [List.mem_cons] at hlx
                        rcases hlx with rfl | hlx
                        · exact make_lexer_wf fs _ ftok.loc lx heq4
                        · rw [List.mem_cons] at hlx
                          rcases hlx with rfl | hlx
                          · exact h3w.2
                          · exact hwrest lx hlx
          · cases h
            refine ⟨h1.1, ?_⟩
            intro lx hlx
            rw [List.mem_cons] at hlx
            rcases hlx with rfl | hlx
            · exact h1.2
            · exact hwrest lx hlx
      · intro m loc h
        rw [inclNext] at h
        split at h
        · exact (ih rest hwrest).2 m loc h
        · rename_i e heq
          injection h with h2
          subst h2
          exact lexerNext_err_pos lexFuel lexer m loc hwlex heq
        · rename_i tok0 lexer1 heq
          have h1 := lexerNext_ok_wf lexFuel lexer tok0 lexer1 hwlex heq
          split at h
          · split at h
            · rename_i e heq2
              injection h with h2
              subst h2
              exact lexerNext_err_pos lexFuel lexer1 m loc h1.2 heq2
            · rename_i ftok lexer2 heq2
              have h2w := lexerNext_ok_wf lexFuel lexer1 ftok lexer2 h1.2 heq2
              split at h
              · simp only [Except.error.injEq, ScanErr.lexError.injEq] at h
                rw [← h.2]
                exact h2w.1
              · split at h
                · rename_i e heq3
                  injection h with h2
                  subst h2
                  exact lexerNext_err_pos lexFuel lexer2 m loc h2w.2 heq3
                · rename_i stok lexer3 heq3
                  have h3w := lexerNext_ok_wf lexFuel lexer2 stok lexer3 h2w.2 heq3
                  split at h
                  · simp only [Except.error.injEq, ScanErr.lexError.injEq] at h
                    rw [← h.2]
                    exact h3w.1
                  · split at h
                    · simp only [Except.error.injEq, ScanErr.lexError.injEq] at h
                      rw [← h.2]
                      exact h2w.1
                    · dsimp only at h
                      split at h
                      · rename_i e heq4
                        injection h with h2
                        subst h2
                        rw [make_lexer_err fs _ ftok.loc m loc heq4]
                        exact h2w.1
                      · rename_i newLex heq4
                        refine (ih _ ?_).2 m loc h
                        intro lx hlx
                        rw [List.mem_cons] at hlx
                        rcases hlx with rfl | hlx
                        · exact make_lexer_wf fs _ ftok.loc lx heq4
                        · rw [List.mem_cons] at hlx
                          rcases hlx with rfl | hlx
                          · exact h3w.2
                          · exact hwrest lx hlx
          · exact absurd h (by simp)


/-! ## Stack-depth and filtering invariants of the resolver -/

theorem inclNext_stack_le (fs : FS) (lexFuel : Nat) :
    ∀ (fuel : Nat) (stack : List LexerState) (tok : Tok)
      (stack' : List LexerState),
      stack.length ≤ 5 → inclNext fs lexFuel fuel stack = .ok (tok, stack') →
      stack'.length ≤ 5 := by
  intro fuel
  induction fuel with
  | zero =>
    intro stack tok stack' _ h
    simp [inclNext] at h
  | succ f ih =>
    intro stack tok stack' hle h
    match stack with
    | [] => simp [inclNext] at h
    | lexer :: rest =>
      rw [inclNext] at h
      split at h
      · exact ih rest tok stack' (by simp at hle; omega) h
      · exact absurd h (by simp)
      · rename_i tok0 lexer1 heq
        split at h
        · split at h
          · exact absurd h (by simp)
          · rename_i ftok lexer2 heq2
            split at h
            · exact absurd h (by simp)
            · split at h
              · exact absurd h (by simp)
              · rename_i stok lexer3 heq3
                split at h
                · exact absurd h (by simp)
                · split at h
                  · exact absurd h (by simp)
                  · rename_i hdepth
                    dsimp only at h
                    split at h
                    · exact absurd h (by simp)
                    · rename_i newLex heq4
                      refine ih _ tok stack' ?_ h
                      simp at hdepth ⊢
                      omega
        · cases h
          simp at hle ⊢
          omega


theorem lexerNext_no_comment_newline :
    ∀ (fuel : Nat) (st : LexerState) (tok : Tok) (st' : LexerState),
      lexerNext fuel st = .ok (tok, st') →
      tok.ttype ≠ .COMMENT ∧ tok.ttype ≠ .NEWLINE := by
  intro fuel
  induction fuel with
  | zero => intro st tok st' h; simp [lexerNext] at h
  | succ f ih =>
    intro st tok st' h
    rw [lexerNext] at h
    split at h
    · exact absurd h (by simp)
    · rename_i tok0 st0 heq
      split at h
      · exact ih _ _ _ h
      · rename_i hcond
        cases h
        push_neg at hcond
        exact hcond

theorem inclNext_no_comment_newline (fs : FS) (lexFuel : Nat) :
    ∀ (fuel : Nat) (stack : List LexerState) (tok : Tok)
      (stack' : List LexerState),
      inclNext fs lexFuel fuel stack = .ok (tok, stack') →
      tok.ttype ≠ .COMMENT ∧ tok.ttype ≠ .NEWLINE := by
  intro fuel
  induction fuel with
  | zero => intro stack tok stack' h; simp [inclNext] at h
  | succ f ih =>
    intro stack tok stack' h
    match stack with
    | [] => simp [inclNext] at h
    | lexer :: rest =>
      rw [inclNext] at h
      split at h
      · exact ih rest tok stack' h
      · exact absurd h (by simp)
      · rename_i tok0 lexer1 heq
        split at h
        · split at h
          · exact absurd h (by simp)
          · split at h
            · exact absurd h (by simp)
            · split at h
              · exact absurd h (by simp)
              · split at h
                · exact absurd h (by simp)
                · split at h
                  · exact absurd h (by simp)
                  · dsimp only at h
                    split at h
                    · exact absurd h (by simp)
                    · exact ih _ tok stack' h
        · cases h
          exact lexerNext_no_comment_newline lexFuel lexer _ lexer1 heq

/-! ## Filename mode, the unreachable expected-file-name check, and
attribution of include IOErrors -/

theorem lexerNext_err_scanner :
    ∀ (fuel : Nat) (st : LexerState) (m : LexMsg) (loc : Location),
      lexerNext fuel st = .error (.lexError m loc) → scannerMsg m = true := by
  intro fuel
  induction fuel with
  | zero =>
    intro st m loc h
    simp [lexerNext] at h
  | succ f ih =>
    intro st m loc h
    rw [lexerNext] at h
    split at h
    · rename_i e heq
      injection h with h2
      rw [h2] at heq
      exact (next_err_loc st m loc heq).2
    · rename_i tok0 st0 heq
      split at h
      · exact ih st0 m loc h
      · exact absurd h (by simp)

theorem scanFileName_ok_ttype (st : LexerState) (start : Nat) (cur : Char)
    (location : Location) (tok : Tok) (st' : LexerState)
    (h : scanFileName st start cur location = .ok (tok, st')) :
    tok.ttype = .FILENAME := by
  unfold scanFileName at h
  split at h
  · exact absurd h (by simp)
  · split at h
    · split at h
      · cases h
        rfl
      · exact absurd h (by simp)
    · exact absurd h (by simp)

theorem nextAt_filename_mode (st : LexerState) (start : Nat) (cur : Char)
    (nextc : Option Char) (location : Location) (tok : Tok) (st' : LexerState)
    (hmode : st.mode_ = .FILENAME)
    (h : nextAt st start cur nextc location = .ok (tok, st')) :
    ((tok.ttype = .COMMENT ∨ tok.ttype = .NEWLINE) ∧ st'.mode_ = .FILENAME) ∨
      tok.ttype = .FILENAME := by
  unfold nextAt at h
  split at h
  · cases h
    exact Or.inl ⟨Or.inr rfl, hmode⟩
  · split at h
    · cases h
      exact Or.inl ⟨Or.inr rfl, hmode⟩
    · split at h
      · cases h
        exact Or.inl ⟨Or.inl rfl, hmode⟩
      · exact Or.inr (scanFileName_ok_ttype st start cur location tok st' h)

theorem next_filename_mode (st : LexerState) (tok : Tok) (st' : LexerState)
    (hmode : st.mode_ = .FILENAME) (h : next_ st = .ok (tok, st')) :
    ((tok.ttype = .COMMENT ∨ tok.ttype = .NEWLINE) ∧ st'.mode_ = .FILENAME) ∨
      tok.ttype = .FILENAME := by
  unfold next_ at h
  split at h
  · exact nextAt_filename_mode _ _ _ _ _ tok st' hmode h
  · exact absurd h (by simp)

theorem lexerNext_filename_ttype :
    ∀ (fuel : Nat) (st : LexerState) (tok : Tok) (st' : LexerState),
      st.mode_ = .FILENAME → lexerNext fuel st = .ok (tok, st') →
      tok.ttype = .FILENAME := by
  intro fuel
  induction fuel with
  | zero =>
    intro st tok st' _ h
    simp [lexerNext] at h
  | succ f ih =>
    intro st tok st' hmode h
    rw [lexerNext] at h
    split at h
    · exact absurd h (by simp)
    · rename_i tok0 st0 heq
      have hcase := next_filename_mode st tok0 st0 hmode heq
      split at h
      · rename_i hf
        rcases hcase with ⟨hcn, hm0⟩ | hfn
        · exact ih st0 tok st' hm0 h
        · rw [hfn] at hf
          rcases hf with hf | hf
          · exact nomatch hf
          · exact nomatch hf
      · rename_i hf
        cases h
        rcases hcase with ⟨hcn, _⟩ | hfn
        · exact absurd hcn hf
        · exact hfn

theorem scanCID_ok_ttype (st : LexerState) (start : Nat) (location : Location)
    (tok : Tok) (st' : LexerState)
    (h : scanCID st start location = .ok (tok, st')) : tok.ttype = .CID := by
  unfold scanCID at h
  split at h
  · cases h
    rfl
  · exact absurd h (by simp)

theorem scanGlyphClass_ok_ttype (st : LexerState) (start : Nat)
    (location : Location) (tok : Tok) (st' : LexerState)
    (h : scanGlyphClass st start location = .ok (tok, st')) :
    tok.ttype = .GLYPHCLASS := by
  unfold scanGlyphClass at h
  split at h
  · exact absurd h (by simp)
  · split at h
    · exact absurd h (by simp)
    · split at h
      · exact absurd h (by simp)
      · cases h
        rfl

theorem scanHex_ok_ttype (st : LexerState) (start : Nat) (location : Location)
    (tok : Tok) (st' : LexerState)
    (h : scanHex st start location = .ok (tok, st')) : tok.ttype = .NUMBER := by
  unfold scanHex at h
  split at h
  · cases h
    rfl
  · exact absurd h (by simp)

theorem scanDecimal_ok_ttype (st : LexerState) (start : Nat)
    (location : Location) (tok : Tok) (st' : LexerState)
    (h : scanDecimal st start location = .ok (tok, st')) :
    tok.ttype = .NUMBER := by
  unfold scanDecimal at h
  split at h
  · cases h
    rfl
  · exact absurd h (by simp)

theorem scanNegNumber_ok_ttype (st : LexerState) (start : Nat)
    (location : Location) (tok : Tok) (st' : LexerState)
    (h : scanNegNumber st start location = .ok (tok, st')) :
    tok.ttype = .NUMBER := by
  unfold scanNegNumber at h
  split at h
  · cases h
    rfl
  · exact absurd h (by simp)

theorem scanString_ok_ttype (st : LexerState) (start : Nat)
    (location : Location) (tok : Tok) (st' : LexerState)
    (h : scanString st start location = .ok (tok, st')) :
    tok.ttype = .STRING := by
  unfold scanString at h
  split at h
  · split at h
    · cases h
      rfl
    · exact absurd h (by simp)
  · exact absurd h (by simp)

theorem scanName_include_mode (st : LexerState) (start : Nat)
    (location : Location) (tok : Tok) (st' : LexerState)
    (h : scanName st start location = .ok (tok, st'))
    (hval : tok.value = .str "include") : st'.mode_ = .FILENAME := by
  unfold scanName at h
  split at h
  · cases h
    rfl
  · rename_i hne
    cases h
    exfalso
    apply hne
    injection hval with hv2
    exact congrArg String.data hv2

theorem nextMinusSymbol_not_name (st : LexerState) (start : Nat) (cur : Char)
    (nextc : Option Char) (location : Location) (tok : Tok) (st' : LexerState)
    (h : nextMinusSymbol st start cur nextc location = .ok (tok, st')) :
    tok.ttype ≠ .NAME := by
  unfold nextMinusSymbol at h
  split at h
  · exact absurd h (by simp)
  · rw [scanNegNumber_ok_ttype st start location tok st' h]
    intro he
    exact nomatch he
  · split at h
    · cases h
      intro he
      exact nomatch he
    · split at h
      · rw [scanString_ok_ttype st start location tok st' h]
        intro he
        exact nomatch he
      · exact absurd h (by simp)

theorem nextNumberish_not_name (st : LexerState) (start : Nat) (cur : Char)
    (nextc : Option Char) (location : Location) (tok : Tok) (st' : LexerState)
    (h : nextNumberish st start cur nextc location = .ok (tok, st')) :
    tok.ttype ≠ .NAME := by
  unfold nextNumberish at h
  split at h
  · exact absurd h (by simp)
  · rw [scanHex_ok_ttype st start location tok st' h]
    intro he
    exact nomatch he
  · split at h
    · rw [scanDecimal_ok_ttype st start location tok st' h]
      intro he
      exact nomatch he
    · exact nextMinusSymbol_not_name st start cur nextc location tok st' h

theorem nextNormal_include_mode (st : LexerState) (start : Nat) (cur : Char)
    (nextc : Option Char) (location : Location) (tok : Tok) (st' : LexerState)
    (h : nextNormal st start cur nextc location = .ok (tok, st'))
    (hty : tok.ttype = .NAME) (hval : tok.value = .str "include") :
    st'.mode_ = .FILENAME := by
  unfold nextNormal at h
  split at h
  · exact absurd h (by simp)
  · rw [scanCID_ok_ttype st start location tok st' h] at hty
    exact nomatch hty
  · split at h
    · rw [scanGlyphClass_ok_ttype st start location tok st' h] at hty
      exact nomatch hty
    · split at h
      · exact scanName_include_mode st start location tok st' h hval
      · exact absurd hty (nextNumberish_not_name st start cur nextc location tok st' h)

theorem nextAt_include_mode (st : LexerState) (start : Nat) (cur : Char)
    (nextc : Option Char) (location : Location) (tok : Tok) (st' : LexerState)
    (h : nextAt st start cur nextc location = .ok (tok, st'))
    (hty : tok.ttype = .NAME) (hval : tok.value = .str "include") :
    st'.mode_ = .FILENAME := by
  unfold nextAt at h
  split at h
  · cases h
    exact nomatch hty
  · split at h
    · cases h
      exact nomatch hty
    · split at h
      · cases h
        exact nomatch hty
      · split at h
        · rw [scanFileName_ok_ttype st start cur location tok st' h] at hty
          exact nomatch hty
        · exact nextNormal_include_mode st start cur nextc location tok st' h hty hval

theorem next_include_mode (st : LexerState) (tok : Tok) (st' : LexerState)
    (h : next_ st = .ok (tok, st'))
    (hty : tok.ttype = .NAME) (hval : tok.value = .str "include") :
    st'.mode_ = .FILENAME := by
  unfold next_ at h
  split at h
  · exact nextAt_include_mode _ _ _ _ _ tok st' h hty hval
  · exact absurd h (by simp)

theorem lexerNext_include_mode :
    ∀ (fuel : Nat) (st : LexerState) (tok : Tok) (st' : LexerState),
      lexerNext fuel st = .ok (tok, st') →
      tok.ttype = .NAME → tok.value = .str "include" →
      st'.mode_ = .FILENAME := by
  intro fuel
  induction fuel with
  | zero =>
    intro st tok st' h
    simp [lexerNext] at h
  | succ f ih =>
    intro st tok st' h hty hval
    rw [lexerNext] at h
    split at h
    · exact absurd h (by simp)
    · rename_i tok0 st0 heq
      split at h
      · exact ih st0 tok st' h hty hval
      · cases h
        exact next_include_mode st tok st' heq hty hval

theorem make_lexer_err_io (fs : FS) (p : String) (loc0 : Location) (m : LexMsg)
    (loc : Location) (h : make_lexer_ fs p loc0 = .error (.lexError m loc)) :
    m = .ioError p ∧ loc = loc0 ∧ fs p = Option.none := by
  unfold make_lexer_ at h
  split at h
  · exact absurd h (by simp)
  · rename_i hfs
    simp only [Except.error.injEq, ScanErr.lexError.injEq] at h
    exact ⟨h.1.symm, h.2.symm, hfs⟩

theorem inclNext_no_expectedFileName (fs : FS) (lexFuel : Nat) :
    ∀ (fuel : Nat) (stack : List LexerState) (loc : Location),
      inclNext fs lexFuel fuel stack ≠
        .error (.lexError .expectedFileName loc) := by
  intro fuel
  induction fuel with
  | zero =>
    intro stack loc h
    simp [inclNext] at h
  | succ f ih =>
    intro stack loc
    match stack with
    | [] =>
      intro h
      simp [inclNext] at h
    | lexer :: rest =>
      intro h
      rw [inclNext] at h
      split at h
      · exact ih rest loc h
      · rename_i e heq
        injection h with h2
        rw [h2] at heq
        have hs := lexerNext_err_scanner lexFuel lexer .expectedFileName loc heq
        exact nomatch hs
      · rename_i tok0 lexer1 heq
        split at h
        · rename_i hinc
          split at h
          · rename_i e heq2
            injection h with h2
            rw [h2] at heq2
            have hs := lexerNext_err_scanner lexFuel lexer1 .expectedFileName loc heq2
            exact nomatch hs
          · rename_i ftok lexer2 heq2
            split at h
            · rename_i hne
              have hm1 := lexerNext_include_mode lexFuel lexer tok0 lexer1 heq
                hinc.1 hinc.2
              have hft := lexerNext_filename_ttype lexFuel lexer1 ftok lexer2 hm1 heq2
              exact hne hft
            · split at h
              · rename_i e heq3
                injection h with h2
                rw [h2] at heq3
                have hs := lexerNext_err_scanner lexFuel lexer2 .expectedFileName loc heq3
                exact nomatch hs
              · rename_i stok lexer3 heq3
                split at h
                · exact absurd h (by simp)
                · split at h
                  · exact absurd h (by simp)
                  · dsimp only at h
                    split at h
                    · rename_i e heq4
                      injection h with h2
                      rw [h2] at heq4
                      have hio := make_lexer_err_io fs _ ftok.loc .expectedFileName loc heq4
                      exact nomatch hio.1
                    · exact ih _ loc h
        · exact absurd h (by simp)

theorem next_filename_not_paren (st : LexerState) (cur : Char)
    (hlt : wsPos st < st.text_.length)
    (hmode : st.mode_ = .FILENAME)
    (hcur : st.text_.get ⟨wsPos st, hlt⟩ = cur)
    (h1 : cur ≠ '\n') (h2 : cur ≠ '\r') (h3 : cur ≠ '#') (h4 : cur ≠ '(') :
    next_ st = .error (.lexError .expectedOpenParen
      ⟨st.filename_, st.line_, (wsPos st : Int) - (st.line_start_ : Int) + 1⟩) := by
  unfold next_
  rw [dif_pos hlt]
  rw [hcur]
  unfold nextAt
  rw [if_neg h1, if_neg h2, if_neg h3]
  rw [if_pos (show ({ st with pos_ := wsPos st } : LexerState).mode_ = Mode.FILENAME from hmode)]
  unfold scanFileName
  rw [if_pos h4]

theorem inclNext_include_stop (fs : FS) (lexFuel fuel : Nat)
    (lexer lexer1 : LexerState) (rest : List LexerState) (tok0 : Tok)
    (h1 : lexerNext lexFuel lexer = .ok (tok0, lexer1))
    (hty : tok0.ttype = .NAME) (hval : tok0.value = .str "include")
    (h2 : lexerNext lexFuel lexer1 = .error .stop) :
    inclNext fs lexFuel (fuel + 1) (lexer :: rest) = .error .stop := by
  rw [inclNext, h1]
  dsimp only
  rw [if_pos (⟨hty, hval⟩ : tok0.ttype = .NAME ∧ tok0.value = .str "include")]
  rw [h2]

theorem lexerNext_file :
    ∀ (fuel : Nat) (st : LexerState) (tok : Tok) (st' : LexerState),
      WF st → lexerNext fuel st = .ok (tok, st') →
      tok.loc.file = st.filename_ ∧ st'.filename_ = st.filename_ := by
  intro fuel
  induction fuel with
  | zero =>
    intro st tok st' _ h
    simp [lexerNext] at h
  | succ f ih =>
    intro st tok st' hwf h
    rw [lexerNext] at h
    split at h
    · exact absurd h (by simp)
    · rename_i tok0 st0 heq
      obtain ⟨s1, s2, s3, s4, s5, s6, s7, s8, s9, s10, s11⟩ :=
        next_ok_spec st tok0 st0 hwf.1 heq
      split at h
      · obtain ⟨hf1, hf2⟩ := ih st0 tok st' (next_ok_wf st tok0 st0 hwf heq).2 h
        exact ⟨hf1.trans s7, hf2.trans s7⟩
      · cases h
        refine ⟨?_, s7⟩
        rw [s1]

theorem inclNext_ioError_spec (fs : FS) (lexFuel : Nat) :
    ∀ (fuel : Nat) (stack : List LexerState) (path : String) (loc : Location),
      (∀ lx ∈ stack, WF lx) →
      inclNext fs lexFuel fuel stack = .error (.lexError (.ioError path) loc) →
      fs path = Option.none ∧
      ∃ (lexer1 lexer2 lexer3 : LexerState) (ftok stok : Tok),
        lexerNext lexFuel lexer1 = .ok (ftok, lexer2) ∧
        ftok.ttype = .FILENAME ∧ ftok.loc = loc ∧
        lexerNext lexFuel lexer2 = .ok (stok, lexer3) ∧
        path = osPathJoin (osPathSplit lexer3.filename_).1 ftok.value.strVal ∧
        lexer3.filename_ = lexer1.filename_ ∧
        loc.file = lexer1.filename_ ∧ 1 ≤ loc.line ∧ 1 ≤ loc.col := by
  intro fuel
  induction fuel with
  | zero =>
    intro stack path loc _ h
    simp [inclNext] at h
  | succ f ih =>
    intro stack path loc hwf
    match stack with
    | [] =>
      intro h
      simp [inclNext] at h
    | lexer :: rest =>
      intro h
      have hwlex : WF lexer := hwf lexer (by simp)
      have hwrest : ∀ lx ∈ rest, WF lx := fun lx hlx => hwf lx (by simp [hlx])
      rw [inclNext] at h
      split at h
      · exact ih rest path loc hwrest h
      · rename_i e heq
        injection h with h2
        rw [h2] at heq
        have hs := lexerNext_err_scanner lexFuel lexer (.ioError path) loc heq
        exact nomatch hs
      · rename_i tok0 lexer1 heq
        have h1 := lexerNext_ok_wf lexFuel lexer tok0 lexer1 hwlex heq
        split at h
        · split at h
          · rename_i e heq2
            injection h with h2
            rw [h2] at heq2
            have hs := lexerNext_err_scanner lexFuel lexer1 (.ioError path) loc heq2
            exact nomatch hs
          · rename_i ftok lexer2 heq2
            have h2w := lexerNext_ok_wf lexFuel lexer1 ftok lexer2 h1.2 heq2
            split at h
            · exact absurd h (by simp)
            · rename_i hnn
              split at h
              · rename_i e heq3
                injection h with h2
                rw [h2] at heq3
                have hs := lexerNext_err_scanner lexFuel lexer2 (.ioError path) loc heq3
                exact nomatch hs
              · rename_i stok lexer3 heq3
                have h3w := lexerNext_ok_wf lexFuel lexer2 stok lexer3 h2w.2 heq3
                split at h
                · exact absurd h (by simp)
                · split at h
                  · exact absurd h (by simp)
                  · dsimp only at h
                    split at h
                    · rename_i e heq4
                      injection h with h2
                      rw [h2] at heq4
                      have hio := make_lexer_err_io fs _ ftok.loc (.ioError path) loc heq4
                      have hpath : path =
                          osPathJoin (osPathSplit lexer3.filename_).1 ftok.value.strVal := by
                        injection hio.1 with hp
                      have hloc : ftok.loc = loc := hio.2.1.symm
                      obtain ⟨hff, hlf⟩ :=
                        lexerNext_file lexFuel lexer1 ftok lexer2 h1.2 heq2
                      obtain ⟨_, hlf3⟩ :=
                        lexerNext_file lexFuel lexer2 stok lexer3 h2w.2 heq3
                      refine ⟨?_, lexer1, lexer2, lexer3, ftok, stok, heq2,
                        not_not.mp hnn, hloc, heq3, hpath, hlf3.trans hlf, ?_, ?_, ?_⟩
                      · rw [hpath] at hio ⊢
                        exact hio.2.2
                      · rw [← hloc]
                        exact hff
                      · rw [← hloc]
                        exact h2w.1.1
                      · rw [← hloc]
                        exact h2w.1.2
                    · rename_i newLex heq4
                      refine ih _ path loc ?_ h
                      intro lx hlx
                      rw [List.mem_cons] at hlx
                      rcases hlx with rfl | hlx
                      · exact make_lexer_wf fs _ ftok.loc lx heq4
                      · rw [List.mem_cons] at hlx
                        rcases hlx with rfl | hlx
                        · exact h3w.2
                        · exact hwrest lx hlx
        · exact absurd h (by simp)

/-! ## The claims -/

/-- Counterexample to C1 as stated: on the buffer `#c\nx`, the raw `next_`
produces a Comment token, but the first call of the Scanner's public `next()`
returns the Name token `x` — the Comment (and Newline) tokens are filtered
out by `next()` itself, not delivered to the caller. -/
theorem C1_counterexample :
    stepType (next_ (Lexer.init "#c\nx" "f")) = some .COMMENT ∧
    stepType (lexerNext 10 (Lexer.init "#c\nx" "f")) = some .NAME ∧
    TokenType.NAME ≠ TokenType.COMMENT :=
  ⟨rfl, rfl, by decide⟩

/-- C1 (amended): the Scanner's public `next()` never returns a Comment or
Newline token (it filters them itself), and consequently the IncludeResolver
never receives or forwards one. -/
theorem C1_comment_newline_filtered :
    (∀ (fuel : Nat) (st : LexerState) (tok : Tok) (st' : LexerState),
        lexerNext fuel st = .ok (tok, st') →
        tok.ttype ≠ .COMMENT ∧ tok.ttype ≠ .NEWLINE) ∧
    (∀ (fs : FS) (lexFuel fuel : Nat) (stack : List LexerState) (tok : Tok)
        (stack' : List LexerState),
        inclNext fs lexFuel fuel stack = .ok (tok, stack') →
        tok.ttype ≠ .COMMENT ∧ tok.ttype ≠ .NEWLINE) :=
  ⟨lexerNext_no_comment_newline,
   fun fs lexFuel => inclNext_no_comment_newline fs lexFuel⟩

/-- Witness for C1: the amended claim applied to the buffer `#c\nx`, whose
first public token is the Name `x` on line 2. -/
theorem C1_comment_newline_filtered_witness :
    (⟨.NAME, .str "x", ⟨"f", 2, 1⟩⟩ : Tok).ttype ≠ .COMMENT ∧
    (⟨.NAME, .str "x", ⟨"f", 2, 1⟩⟩ : Tok).ttype ≠ .NEWLINE :=
  C1_comment_newline_filtered.1 10 (Lexer.init "#c\nx" "f") _ _ rfl

/-- Counterexample to C2 as stated: when the root buffer ends immediately
after the name `include`, the resolver's stream ends normally with no tokens
and no LexError — the StopIteration escaping the unguarded `lexer.next()`
call on the file-name pull ends the iteration silently. -/
theorem C2_counterexample :
    runIncluding fsInclEOB "root.fea" 20 20 = .ok [] :=
  rfl

/-- C2 (amended): the resolver's own expected-file-reference failure is
unreachable — for every filesystem, fuel, stack and location, a resolver
step never returns that LexError, because after the name `include` the
Scanner is in filename mode and can only yield a Filename token or raise.
A malformed file reference instead fails inside the Scanner: for every
state in filename mode whose first character after whitespace is not `(`
(and not a newline, carriage return or `#`, which become filtered Newline
and Comment tokens), `next_` raises the expected-open-parenthesis LexError
at that character's captured location; and whenever the file-name pull
after a consumed `include` name hits the end of the buffer, the
StopIteration escaping the unguarded `lexer.next()` call ends the
resolver's stream normally.  Concretely, `include x;` fails with the
Scanner's LexError at column 9 and the buffer `include` yields the empty
stream with no error. -/
theorem C2_malformed_include :
    (∀ (fs : FS) (lexFuel fuel : Nat) (stack : List LexerState) (loc : Location),
        inclNext fs lexFuel fuel stack ≠
          .error (.lexError .expectedFileName loc)) ∧
    (∀ (st : LexerState) (cur : Char) (hlt : wsPos st < st.text_.length),
        st.mode_ = .FILENAME →
        st.text_.get ⟨wsPos st, hlt⟩ = cur →
        cur ≠ '\n' → cur ≠ '\r' → cur ≠ '#' → cur ≠ '(' →
        next_ st = .error (.lexError .expectedOpenParen
          ⟨st.filename_, st.line_, (wsPos st : Int) - (st.line_start_ : Int) + 1⟩)) ∧
    (∀ (fs : FS) (lexFuel fuel : Nat) (lexer lexer1 : LexerState)
        (rest : List LexerState) (tok0 : Tok),
        lexerNext lexFuel lexer = .ok (tok0, lexer1) →
        tok0.ttype = .NAME → tok0.value = .str "include" →
        lexerNext lexFuel lexer1 = .error .stop →
        inclNext fs lexFuel (fuel + 1) (lexer :: rest) = .error .stop) ∧
    runIncluding fsInclBad "root.fea" 20 20 =
      .error (.lexError .expectedOpenParen ⟨"root.fea", 1, 9⟩) ∧
    runIncluding fsInclEOB "root.fea" 20 20 = .ok [] :=
  ⟨fun fs lexFuel fuel stack loc =>
      inclNext_no_expectedFileName fs lexFuel fuel stack loc,
   fun st cur hlt hmode hcur h1 h2 h3 h4 =>
      next_filename_not_paren st cur hlt hmode hcur h1 h2 h3 h4,
   fun fs lexFuel fuel lexer lexer1 rest tok0 ha hb hc hd =>
      inclNext_include_stop fs lexFuel fuel lexer lexer1 rest tok0 ha hb hc hd,
   rfl, rfl⟩

/-- Witness for C2: the filename-mode open-parenthesis failure applied to
the concrete scanner state reached after the name `include` in the buffer
`include x;`. -/
theorem C2_malformed_include_witness :
    next_ c2St = .error (.lexError .expectedOpenParen ⟨"root.fea", 1, 9⟩) :=
  C2_malformed_include.2.1 c2St 'x' (by decide) rfl rfl
    (by decide) (by decide) (by decide) (by decide)

/-- C3: a resolver step never grows a stack of at most 5 Scanners beyond 5;
a chain of 6 nested includes fails with the too-many-recursive-includes
LexError at the filename token's location in the fifth file, while a chain
of exactly 5 files succeeds and yields the innermost file's token. -/
theorem C3_stack_depth_bounded :
    (∀ (fs : FS) (lexFuel fuel : Nat) (stack : List LexerState) (tok : Tok)
        (stack' : List LexerState),
        stack.length ≤ 5 → inclNext fs lexFuel fuel stack = .ok (tok, stack') →
        stack'.length ≤ 5) ∧
    runIncluding fs6 "f1" 30 40 =
      .error (.lexError .tooManyRecursiveIncludes ⟨"f5", 1, 8⟩) ∧
    runIncluding fs5 "f1" 30 40 = .ok [⟨.NAME, .str "A", ⟨"f5", 1, 1⟩⟩] :=
  ⟨fun fs lexFuel => inclNext_stack_le fs lexFuel, rfl, rfl⟩

/-- Witness for C3: the stack invariant applied to a singleton stack holding
a one-token Scanner. -/
theorem C3_stack_depth_bounded_witness :
    ([oneTokenLexerAfter] : List LexerState).length ≤ 5 :=
  C3_stack_depth_bounded.1 fsEmpty 10 10 [oneTokenLexer]
    ⟨.NAME, .str "x", ⟨"f", 1, 1⟩⟩ [oneTokenLexerAfter] (by decide) rfl

/-- C4 (code bug): tokenizing the two-character buffer `0x` raises the raw
Python ValueError from `int("0x", 16)` — an unlabeled conversion error, not
a LexError, escapes `next()`. -/
theorem C4_raw_value_error :
    next_ (Lexer.init "0x" "f") = .error (.valueError ['0', 'x']) :=
  rfl

/-- C5: for a root file `include(a.fea); include(b.fea);` where both files
hold one name token, the resolver yields exactly those two Name tokens in
file order, and the output contains no `include` name, no Filename token and
no semicolon Symbol token. -/
theorem C5_include_transparent :
    runIncluding fsAB "root.fea" 30 40 =
      .ok [⟨.NAME, .str "foo", ⟨"a.fea", 1, 1⟩⟩,
           ⟨.NAME, .str "bar", ⟨"b.fea", 1, 1⟩⟩] ∧
    (match runIncluding fsAB "root.fea" 30 40 with
     | .ok toks => toks.all fun t =>
         !(t.value == .str "include") && !(t.ttype == .FILENAME) &&
         !(t.ttype == .SYMBOL && t.value == .str ";")
     | .error _ => false) = true :=
  ⟨rfl, rfl⟩

/-- C6: every unreadable include target, at any nesting depth, fails with
the IOError-derived LexError located exactly at the Filename token that the
including file's Scanner produced: for every filesystem, fuel, stack of
well-formed Scanners and failing path, the error location is the location
of a Filename token pulled (together with the following semicolon) from a
Scanner whose source name is the location's file component, the location's
line and column are at least 1, and the target path — joined from that
including Scanner's directory and the Filename token's text — could not be
opened.  Concretely, a root-level missing include errors at
`(root.fea, 1, 8)` and a nested one at `(mid.fea, 1, 8)`, never inside the
missing `nope.fea`. -/
theorem C6_unreadable_include_location :
    (∀ (fs : FS) (lexFuel fuel : Nat) (stack : List LexerState)
        (path : String) (loc : Location),
        (∀ lx ∈ stack, WF lx) →
        inclNext fs lexFuel fuel stack = .error (.lexError (.ioError path) loc) →
        fs path = Option.none ∧
        ∃ (lexer1 lexer2 lexer3 : LexerState) (ftok stok : Tok),
          lexerNext lexFuel lexer1 = .ok (ftok, lexer2) ∧
          ftok.ttype = .FILENAME ∧ ftok.loc = loc ∧
          lexerNext lexFuel lexer2 = .ok (stok, lexer3) ∧
          path = osPathJoin (osPathSplit lexer3.filename_).1 ftok.value.strVal ∧
          lexer3.filename_ = lexer1.filename_ ∧
          loc.file = lexer1.filename_ ∧ 1 ≤ loc.line ∧ 1 ≤ loc.col) ∧
    runIncluding fsMissing "root.fea" 20 20 =
      .error (.lexError (.ioError "nope.fea") ⟨"root.fea", 1, 8⟩) ∧
    runIncluding fsNestedMissing "root.fea" 30 40 =
      .error (.lexError (.ioError "nope.fea") ⟨"mid.fea", 1, 8⟩) ∧
    ("root.fea" : String) ≠ "nope.fea" ∧ ("mid.fea" : String) ≠ "nope.fea" :=
  ⟨fun fs lexFuel => inclNext_ioError_spec fs lexFuel,
   rfl, rfl, by decide, by decide⟩

/-- Witness for C6: the attribution theorem applied to a singleton stack
holding a Scanner over the concrete root file whose include target is
unreadable. -/
theorem C6_unreadable_include_location_witness :
    fsMissing "nope.fea" = Option.none :=
  (C6_unreadable_include_location.1 fsMissing 20 20 [c6Lexer] "nope.fea"
    ⟨"root.fea", 1, 8⟩
    (by intro lx hlx
        rw [List.mem_singleton] at hlx
        subst hlx
        exact WF_init _ _)
    rfl).1

/-- Counterexample to C7 as stated: in the buffer `include(a\nb);` the
newline inside the file reference is consumed by `scan_until_(")")` without
advancing the line counter, so the semicolon token — which sits after one
newline sequence — still carries line 1 (and column 13 counted from the
buffer start), not the line-1-plus-one the once-per-newline-sequence rule
predicts. -/
theorem C7_counterexample :
    rawTokens 10 (Lexer.init "include(a\nb);" "f") =
      [⟨.NAME, .str "include", ⟨"f", 1, 1⟩⟩,
       ⟨.FILENAME, .str "a\nb", ⟨"f", 1, 8⟩⟩,
       ⟨.SYMBOL, .str ";", ⟨"f", 1, 13⟩⟩] ∧
    nlSeqCount ((Lexer.init "include(a\nb);" "f").text_.take 12) = 1 ∧
    ((rawTokens 10 (Lexer.init "include(a\nb);" "f")).getLast?.map
        fun t => t.loc.line) ≠
      some (1 + nlSeqCount ((Lexer.init "include(a\nb);" "f").text_.take 12)) :=
  ⟨rfl, rfl, by decide⟩

/-- C7 (amended): every token's location is captured after the whitespace
skip and before any token character is consumed — its file is the Scanner's
source name, its line is the current line counter, its column is the 1-based
offset of the token's first character from the line start, the characters
skipped before it are all whitespace, and the token's first character exists
at the captured position; and for every token except Filename the line
counter advances by exactly the number of newline sequences consumed
(1 for a Newline token, 0 — no newline characters at all — for the rest).
Newlines consumed inside a Filename token are the single exception, as the
counterexample shows. -/
theorem C7_token_location_discipline :
    ∀ (st : LexerState) (tok : Tok) (st' : LexerState),
      st.line_start_ ≤ st.pos_ →
      next_ st = .ok (tok, st') →
      tok.loc.file = st.filename_ ∧
      tok.loc.line = st.line_ ∧
      tok.loc.col = (wsPos st : Int) - (st.line_start_ : Int) + 1 ∧
      wsPos st < st.text_.length ∧
      st.pos_ ≤ wsPos st ∧
      (slice st.text_ st.pos_ (wsPos st)).all
        (fun c => CHAR_WHITESPACE_.contains c) = true ∧
      wsPos st ≤ st'.pos_ ∧
      (tok.ttype ≠ .FILENAME →
        st'.line_ = st.line_ + nlSeqCount (slice st.text_ (wsPos st) st'.pos_)) := by
  intro st tok st' hls h
  obtain ⟨hloc, hlt, hall, hp1, hp2, _, _, _, _, hNL, hoth⟩ :=
    next_ok_spec st tok st' hls h
  refine ⟨by rw [hloc], by rw [hloc], by rw [hloc], hlt, hp1, hall, hp2, ?_⟩
  intro hnf
  by_cases hn : tok.ttype = .NEWLINE
  · obtain ⟨h1, h2⟩ := hNL hn
    rw [h1, h2]
  · obtain ⟨h1, _, h3⟩ := hoth hn hnf
    rw [h1, h3]
    rfl

/-- Witness for C7: the amended claim applied to the two-character buffer
`ab`, whose first token is the Name `ab` at line 1, column 1. -/
theorem C7_token_location_discipline_witness :
    c7St.line_start_ ≤ c7St.pos_ ∧
    (c7Tok.loc.file = c7St.filename_ ∧
     c7Tok.loc.line = c7St.line_ ∧
     c7Tok.loc.col = (wsPos c7St : Int) - (c7St.line_start_ : Int) + 1 ∧
     wsPos c7St < c7St.text_.length ∧
     c7St.pos_ ≤ wsPos c7St ∧
     (slice c7St.text_ c7St.pos_ (wsPos c7St)).all
       (fun c => CHAR_WHITESPACE_.contains c) = true ∧
     wsPos c7St ≤ c7After.pos_ ∧
     (c7Tok.ttype ≠ .FILENAME →
       c7After.line_ = c7St.line_ +
         nlSeqCount (slice c7St.text_ (wsPos c7St) c7After.pos_))) :=
  ⟨by decide, C7_token_location_discipline c7St c7Tok c7After (by decide) rfl⟩


/-- C8: at a buffer position whose next character is a double quote (normal
mode), the scanner emits one String token whose value is exactly the text
strictly between the quotes and advances the cursor past the closing quote
when a closing quote occurs before any carriage return, line feed or end of
buffer, and otherwise fails with the unterminated-string LexError at the
opening quote's location. -/
theorem C8_string_token :
    ∀ (st : LexerState) (j : Nat),
      st.mode_ = .NORMAL →
      st.text_.get? st.pos_ = some '"' →
      j = countWhile (fun c => !(['"', '\r', '\n'] : List Char).contains c)
        (st.text_.drop (st.pos_ + 1)) →
      (((st.text_.drop (st.pos_ + 1)).get? j = some '"' →
        next_ st = .ok (⟨.STRING,
            .str (String.mk ((st.text_.drop (st.pos_ + 1)).take j)),
            ⟨st.filename_, st.line_, (st.pos_ : Int) - (st.line_start_ : Int) + 1⟩⟩,
          { st with pos_ := st.pos_ + 1 + j + 1 })) ∧
      ((st.text_.drop (st.pos_ + 1)).get? j ≠ some '"' →
        next_ st = .error (.lexError .expectedStringTerm
          ⟨st.filename_, st.line_, (st.pos_ : Int) - (st.line_start_ : Int) + 1⟩))) := by
  intro st j hmode hcur hj
  obtain ⟨fn, ln, pos, ls, text, mode⟩ := st
  dsimp only at hmode hcur hj ⊢
  subst hmode
  have hws : wsPos ⟨fn, ln, pos, ls, text, .NORMAL⟩ = pos :=
    scanOverPos_eq_self text CHAR_WHITESPACE_ pos '"' hcur (by decide)
  obtain ⟨hlen, hget⟩ := List.get?_eq_some.mp hcur
  have hdropget : (text.drop (pos + 1)).get? j = text.get? (pos + 1 + j) := by
    rw [List.get?_eq_getElem?, List.get?_eq_getElem?, List.getElem?_drop]
  have hred : next_ ⟨fn, ln, pos, ls, text, .NORMAL⟩ =
      scanString ⟨fn, ln, pos, ls, text, .NORMAL⟩ pos
        ⟨fn, ln, (pos : Int) - (ls : Int) + 1⟩ := by
    unfold next_
    rw [show wsPos ⟨fn, ln, pos, ls, text, Mode.NORMAL⟩ = pos from hws]
    rw [dif_pos hlen]
    rw [show text.get ⟨pos, hlen⟩ = '"' from hget]
    rfl
  rw [hred]
  have hp : scanUntilPos text ['"', '\r', '\n'] (pos + 1) = pos + 1 + j := by
    unfold scanUntilPos
    rw [← hj]
  constructor
  · intro hgetj
    unfold scanString
    rw [hp]
    rw [hdropget] at hgetj
    rw [hgetj]
    have hslice : slice text (pos + 1) (pos + 1 + j) = (text.drop (pos + 1)).take j := by
      unfold slice
      rw [show pos + 1 + j - (pos + 1) = j from by omega]
    dsimp only
    rw [if_pos rfl, hslice]
  · intro hgetj
    rw [hdropget] at hgetj
    unfold scanString
    rw [hp]
    cases hc : text.get? (pos + 1 + j) with
    | none => rfl
    | some c =>
      rw [hc] at hgetj
      have hcne : ¬c = '"' := fun he => hgetj (by rw [he])
      dsimp only
      rw [if_neg hcne]

/-- Witness for C8: the claim applied to the concrete four-character buffer
holding a quoted `hi`. -/
theorem C8_string_token_witness :
    next_ (Lexer.init "\"hi\"" "f") =
      .ok (⟨.STRING, .str "hi", ⟨"f", 1, 1⟩⟩,
        ⟨"f", 1, 4, 0, ['"', 'h', 'i', '"'], .NORMAL⟩) :=
  (C8_string_token (Lexer.init "\"hi\"" "f") 2 rfl rfl rfl).1 rfl

/-- C9 (code bug): `-7` is one Number token with value `-7` (not a Symbol
followed by a Number) and `-a` gives a Symbol `-`; but a `-` that is the
last character of the buffer does not give a Symbol token — the membership
test `next_char in CHAR_DIGIT_` runs with `next_char = None` and raises an
uncaught TypeError. -/
theorem C9_minus_tokens :
    stepTok (next_ (Lexer.init "-7" "f")) =
      some ⟨.NUMBER, .int (-7), ⟨"f", 1, 1⟩⟩ ∧
    stepTok (next_ (Lexer.init "-a" "f")) =
      some ⟨.SYMBOL, .str "-", ⟨"f", 1, 1⟩⟩ ∧
    next_ (Lexer.init "-" "f") = .error .typeError :=
  ⟨rfl, rfl, rfl⟩

/-- C10: constructing the resolver over an unreadable root file fails with a
LexError at the literal location `(rootFilename, 0, 0)`, and this zero
line/column cannot arise anywhere else: on well-formed Scanner states every
token location and every LexError location produced by the Scanner — and,
for stacks of well-formed Scanners, by the resolver — has line ≥ 1 and
column ≥ 1 (well-formedness is preserved throughout). -/
theorem C10_root_zero_location :
    runIncluding fsEmpty "ghost.fea" 10 10 =
      .error (.lexError (.ioError "ghost.fea") ⟨"ghost.fea", 0, 0⟩) ∧
    (∀ (st : LexerState) (tok : Tok) (st' : LexerState),
       WF st → next_ st = .ok (tok, st') →
       (1 ≤ tok.loc.line ∧ 1 ≤ tok.loc.col) ∧ WF st') ∧
    (∀ (st : LexerState) (m : LexMsg) (loc : Location),
       WF st → next_ st = .error (.lexError m loc) →
       1 ≤ loc.line ∧ 1 ≤ loc.col) ∧
    (∀ (fs : FS) (lexFuel fuel : Nat) (stack : List LexerState) (tok : Tok)
        (stack' : List LexerState),
       (∀ lx ∈ stack, WF lx) →
       inclNext fs lexFuel fuel stack = .ok (tok, stack') →
       (1 ≤ tok.loc.line ∧ 1 ≤ tok.loc.col) ∧ ∀ lx ∈ stack', WF lx) ∧
    (∀ (fs : FS) (lexFuel fuel : Nat) (stack : List LexerState) (m : LexMsg)
        (loc : Location),
       (∀ lx ∈ stack, WF lx) →
       inclNext fs lexFuel fuel stack = .error (.lexError m loc) →
       1 ≤ loc.line ∧ 1 ≤ loc.col) := by
  refine ⟨rfl, ?_, ?_, ?_, ?_⟩
  · intro st tok st' hwf h
    exact next_ok_wf st tok st' hwf h
  · intro st m loc hwf h
    exact next_err_pos st m loc hwf h
  · intro fs lexFuel fuel stack tok stack' hwf h
    exact (inclNext_pos fs lexFuel fuel stack hwf).1 tok stack' h
  · intro fs lexFuel fuel stack m loc hwf h
    exact (inclNext_pos fs lexFuel fuel stack hwf).2 m loc h

/-- Witness for C10: the Scanner-level positivity applied to a one-token
Scanner. -/
theorem C10_root_zero_location_witness :
    (1 ≤ (⟨.NAME, .str "x", ⟨"f", 1, 1⟩⟩ : Tok).loc.line ∧
     1 ≤ (⟨.NAME, .str "x", ⟨"f", 1, 1⟩⟩ : Tok).loc.col) ∧
    WF oneTokenLexerAfter :=
  C10_root_zero_location.2.1 oneTokenLexer ⟨.NAME, .str "x", ⟨"f", 1, 1⟩⟩
    oneTokenLexerAfter ⟨Nat.le_refl 0, Nat.le_refl 1⟩ rfl

end FeaLexer
